import Mathlib

/-!
Shallow embedding of the mock upstream HTTP server
(`testing/e2e/modules/oagw/mock_upstream.py`): request reading and decoding,
routing, JSON and SSE response encoding.  Python byte strings are modelled as
`List Nat` (one `Nat` per byte), Python `str` as Lean `String` / `List Char`.
-/

/-- ASCII whitespace stripped by Python `str.strip()` (ASCII approximation of
the Unicode whitespace classes). -/
def isPySpace (c : Char) : Bool := c.toNat = 32 || (9 ≤ c.toNat && c.toNat ≤ 13)

/-- Python `str.strip()` on a character list. -/
def pyStrip (l : List Char) : List Char :=
  ((l.dropWhile isPySpace).reverse.dropWhile isPySpace).reverse

/-- Python `str.lower()` (ASCII approximation). -/
def pyLower (l : List Char) : List Char := l.map Char.toLower

/-- Character of a single decimal digit value. -/
def digitChar (k : Nat) : Char := Char.ofNat (48 + k)

/-- Decimal rendering accumulator: digits of `n` followed by `acc`, as in
Python `str(n)` for nonnegative `n`. -/
def natReprAux (n : Nat) (acc : List Char) : List Char :=
  if n < 10 then digitChar n :: acc
  else natReprAux (n / 10) (digitChar (n % 10) :: acc)
termination_by n
decreasing_by exact Nat.div_lt_self (by omega) (by omega)

/-- Decimal digits of `n`, as rendered by Python `str`/f-strings. -/
def natReprChars (n : Nat) : List Char := natReprAux n []

/-- Python `str(n)` for a nonnegative integer. -/
def pyNatRepr (n : Nat) : String := ⟨natReprChars n⟩

/-- Python `str(i)` for an arbitrary integer. -/
def intReprChars (i : Int) : List Char :=
  if i < 0 then '-' :: natReprChars i.natAbs else natReprChars i.toNat

/-- Numeric value of a list of decimal digit characters (Python `int` on an
all-digit string). -/
def digitsVal (l : List Char) : Nat := l.foldl (fun a c => 10 * a + (c.toNat - 48)) 0

theorem digitChar_toNat : ∀ k, k < 10 → (digitChar k).toNat = 48 + k := by decide

theorem digitChar_isDigit : ∀ k, k < 10 → (digitChar k).isDigit = true := by decide

theorem natReprAux_append (n : Nat) : ∀ acc, natReprAux n acc = natReprAux n [] ++ acc := by
  induction n using Nat.strong_induction_on with
  | _ n ih =>
    intro acc
    conv_lhs => rw [natReprAux.eq_def]
    conv_rhs => rw [natReprAux.eq_def]
    by_cases h : n < 10
    · simp only [if_pos h]
      rfl
    · simp only [if_neg h]
      rw [ih (n / 10) (Nat.div_lt_self (by omega) (by omega)) (digitChar (n % 10) :: acc),
        ih (n / 10) (Nat.div_lt_self (by omega) (by omega)) [digitChar (n % 10)]]
      simp

theorem natReprChars_step (n : Nat) :
    natReprChars n =
      if n < 10 then [digitChar n] else natReprChars (n / 10) ++ [digitChar (n % 10)] := by
  show natReprAux n [] = _
  conv_lhs => rw [natReprAux.eq_def]
  by_cases h : n < 10
  · simp only [if_pos h]
  · simp only [if_neg h]
    exact natReprAux_append _ _

theorem natReprChars_digits (n : Nat) : ∀ c ∈ natReprChars n, c.isDigit = true := by
  induction n using Nat.strong_induction_on with
  | _ n ih =>
    intro c hc
    rw [natReprChars_step] at hc
    by_cases h : n < 10
    · rw [if_pos h] at hc
      simp at hc
      subst hc
      exact digitChar_isDigit n h
    · rw [if_neg h] at hc
      rcases List.mem_append.1 hc with h1 | h2
      · exact ih (n / 10) (Nat.div_lt_self (by omega) (by omega)) c h1
      · simp at h2
        subst h2
        exact digitChar_isDigit _ (Nat.mod_lt _ (by omega))

theorem natReprChars_ne_nil (n : Nat) : natReprChars n ≠ [] := by
  rw [natReprChars_step]
  by_cases h : n < 10 <;> simp [h]

theorem digitsVal_natReprChars (n : Nat) : digitsVal (natReprChars n) = n := by
  induction n using Nat.strong_induction_on with
  | _ n ih =>
    rw [natReprChars_step]
    by_cases h : n < 10
    · simp [if_pos h, digitsVal, digitChar_toNat n h]
    · rw [if_neg h]
      have hrec := ih (n / 10) (Nat.div_lt_self (by omega) (by omega))
      simp only [digitsVal, List.foldl_append] at *
      rw [hrec, List.foldl]
      simp [digitChar_toNat _ (Nat.mod_lt n (by omega))]
      omega

/-- Character of a hexadecimal digit value, lowercase as in Python `f"{n:x}"`. -/
def hexDigitChar (k : Nat) : Char := Char.ofNat (if k < 10 then 48 + k else 87 + k)

/-- Lowercase hexadecimal rendering accumulator, as in Python `f"{n:x}"`. -/
def hexReprAux (n : Nat) (acc : List Char) : List Char :=
  if n < 16 then hexDigitChar n :: acc
  else hexReprAux (n / 16) (hexDigitChar (n % 16) :: acc)
termination_by n
decreasing_by exact Nat.div_lt_self (by omega) (by omega)

/-- Lowercase hexadecimal digits of `n` (Python `f"{n:x}"`). -/
def hexReprChars (n : Nat) : List Char := hexReprAux n []

theorem hexReprAux_append (n : Nat) : ∀ acc, hexReprAux n acc = hexReprAux n [] ++ acc := by
  induction n using Nat.strong_induction_on with
  | _ n ih =>
    intro acc
    conv_lhs => rw [hexReprAux.eq_def]
    conv_rhs => rw [hexReprAux.eq_def]
    by_cases h : n < 16
    · simp only [if_pos h]
      rfl
    · simp only [if_neg h]
      rw [ih (n / 16) (Nat.div_lt_self (by omega) (by omega)) (hexDigitChar (n % 16) :: acc),
        ih (n / 16) (Nat.div_lt_self (by omega) (by omega)) [hexDigitChar (n % 16)]]
      simp

theorem hexReprChars_step (n : Nat) :
    hexReprChars n =
      if n < 16 then [hexDigitChar n] else hexReprChars (n / 16) ++ [hexDigitChar (n % 16)] := by
  show hexReprAux n [] = _
  conv_lhs => rw [hexReprAux.eq_def]
  by_cases h : n < 16
  · simp only [if_pos h]
  · simp only [if_neg h]
    exact hexReprAux_append _ _

/-- UTF-8 encoding of one Unicode scalar value (as in Python `str.encode()`). -/
def encodeChar (c : Char) : List Nat :=
  let n := c.toNat
  if n < 128 then [n]
  else if n < 2048 then [192 + n / 64, 128 + n % 64]
  else if n < 65536 then [224 + n / 4096, 128 + n / 64 % 64, 128 + n % 64]
  else [240 + n / 262144, 128 + n / 4096 % 64, 128 + n / 64 % 64, 128 + n % 64]

/-- UTF-8 encoding of a character list. -/
def utf8Enc (l : List Char) : List Nat := l.foldr (fun c acc => encodeChar c ++ acc) []

/-- UTF-8 encoding of a string (Python `str.encode()`). -/
def utf8Str (s : String) : List Nat := utf8Enc s.data

theorem utf8Enc_cons (c : Char) (l : List Char) :
    utf8Enc (c :: l) = encodeChar c ++ utf8Enc l := rfl

theorem utf8Enc_append (a b : List Char) : utf8Enc (a ++ b) = utf8Enc a ++ utf8Enc b := by
  induction a with
  | nil => rfl
  | cons c cs ih => simp [utf8Enc_cons, ih]

theorem utf8Str_append (s t : String) : utf8Str (s ++ t) = utf8Str s ++ utf8Str t := by
  simp [utf8Str, String.data_append, utf8Enc_append]

theorem encodeChar_ascii (c : Char) (h : c.toNat < 128) : encodeChar c = [c.toNat] := by
  simp [encodeChar, h]

theorem utf8Enc_ascii (l : List Char) (h : ∀ c ∈ l, c.toNat < 128) :
    utf8Enc l = l.map Char.toNat := by
  induction l with
  | nil => rfl
  | cons c cs ih =>
    rw [utf8Enc_cons, encodeChar_ascii c (h c (by simp)), ih (fun x hx => h x (by simp [hx]))]
    rfl

/-- Bound on encoded bytes of printable ASCII text: every byte is in `[32, 126]`. -/
theorem utf8Enc_printable (l : List Char) (h : ∀ c ∈ l, 32 ≤ c.toNat ∧ c.toNat ≤ 126) :
    ∀ b ∈ utf8Enc l, 32 ≤ b ∧ b ≤ 126 := by
  rw [utf8Enc_ascii l (fun c hc => by have := h c hc; omega)]
  intro b hb
  rcases List.mem_map.1 hb with ⟨c, hc, rfl⟩
  exact h c hc

/-- Value of one ASCII hexadecimal digit byte (`0-9`, `a-f`, `A-F`). -/
def hexDigitVal (b : Nat) : Nat := if b ≤ 57 then b - 48 else if b ≤ 70 then b - 55 else b - 87

/-- Test for an ASCII hexadecimal digit byte. -/
def isHexByte (b : Nat) : Bool := (48 ≤ b && b ≤ 57) || (97 ≤ b && b ≤ 102) || (65 ≤ b && b ≤ 70)

/-- Value of a list of hexadecimal digit bytes. -/
def hexBytesVal (l : List Nat) : Nat := l.foldl (fun a b => 16 * a + hexDigitVal b) 0

theorem hexDigitChar_val : ∀ k, k < 16 → hexDigitVal (hexDigitChar k).toNat = k := by decide

theorem hexDigitChar_isHex : ∀ k, k < 16 → isHexByte (hexDigitChar k).toNat = true := by decide

theorem hexDigitChar_printable :
    ∀ k, k < 16 → 32 ≤ (hexDigitChar k).toNat ∧ (hexDigitChar k).toNat ≤ 126 := by decide

theorem hexReprChars_isHex (n : Nat) : ∀ c ∈ hexReprChars n, isHexByte c.toNat = true := by
  induction n using Nat.strong_induction_on with
  | _ n ih =>
    intro c hc
    rw [hexReprChars_step] at hc
    by_cases h : n < 16
    · rw [if_pos h] at hc
      simp at hc
      subst hc
      exact hexDigitChar_isHex n h
    · rw [if_neg h] at hc
      rcases List.mem_append.1 hc with h1 | h2
      · exact ih (n / 16) (Nat.div_lt_self (by omega) (by omega)) c h1
      · simp at h2
        subst h2
        exact hexDigitChar_isHex _ (Nat.mod_lt _ (by omega))

theorem hexBytesVal_repr (n : Nat) : hexBytesVal ((hexReprChars n).map Char.toNat) = n := by
  induction n using Nat.strong_induction_on with
  | _ n ih =>
    rw [hexReprChars_step]
    by_cases h : n < 16
    · simp only [if_pos h, List.map_cons, List.map_nil, hexBytesVal, List.foldl]
      rw [hexDigitChar_val n h]
      omega
    · rw [if_neg h]
      have hrec := ih (n / 16) (Nat.div_lt_self (by omega) (by omega))
      simp only [hexBytesVal, List.map_append, List.foldl_append] at *
      rw [hrec]
      simp only [List.map_cons, List.map_nil, List.foldl]
      rw [hexDigitChar_val _ (Nat.mod_lt n (by omega))]
      omega

/-- Printable ASCII character, the only characters `json.dumps` with default
`ensure_ascii=True` ever emits. -/
abbrev printable (c : Char) : Prop := 32 ≤ c.toNat ∧ c.toNat ≤ 126

theorem digitChar_printable : ∀ k, k < 10 → printable (digitChar k) := by decide

theorem natReprChars_printable (n : Nat) : ∀ c ∈ natReprChars n, printable c := by
  induction n using Nat.strong_induction_on with
  | _ n ih =>
    intro c hc
    rw [natReprChars_step] at hc
    by_cases h : n < 10
    · rw [if_pos h] at hc
      simp at hc
      subst hc
      exact digitChar_printable n h
    · rw [if_neg h] at hc
      rcases List.mem_append.1 hc with h1 | h2
      · exact ih (n / 10) (Nat.div_lt_self (by omega) (by omega)) c h1
      · simp at h2
        subst h2
        exact digitChar_printable _ (Nat.mod_lt _ (by omega))

theorem intReprChars_printable (i : Int) : ∀ c ∈ intReprChars i, printable c := by
  intro c hc
  unfold intReprChars at hc
  by_cases h : i < 0
  · rw [if_pos h] at hc
    rcases List.mem_cons.1 hc with h1 | h2
    · subst h1
      decide
    · exact natReprChars_printable _ c h2
  · rw [if_neg h] at hc
    exact natReprChars_printable _ c hc

mutual
/-- JSON values, the payloads fed to `json.dumps`.  Objects keep insertion
order, as Python dicts do. -/
inductive JVal where
  | null
  | bool (b : Bool)
  | num (n : Int)
  | str (s : String)
  | arr (xs : JList)
  | obj (xs : JFields)
deriving DecidableEq
inductive JList where
  | nil
  | cons (hd : JVal) (tl : JList)
deriving DecidableEq
inductive JFields where
  | nil
  | cons (k : String) (v : JVal) (tl : JFields)
deriving DecidableEq
end

/-- Build a `JList` from a Lean list. -/
def JList.ofL : List JVal → JList
  | [] => .nil
  | v :: t => .cons v (JList.ofL t)

/-- Build ordered JSON object fields from a Lean association list. -/
def JFields.ofL : List (String × JVal) → JFields
  | [] => .nil
  | (k, v) :: t => .cons k v (JFields.ofL t)

/-- JSON array literal helper. -/
def jarr (l : List JVal) : JVal := .arr (JList.ofL l)

/-- JSON object literal helper. -/
def jobj (l : List (String × JVal)) : JVal := .obj (JFields.ofL l)

/-- Four fixed lowercase hex digits, as in the `\uXXXX` escapes of
`json.dumps`. -/
def hex4 (n : Nat) : List Char :=
  [hexDigitChar (n / 4096 % 16), hexDigitChar (n / 256 % 16),
    hexDigitChar (n / 16 % 16), hexDigitChar (n % 16)]

/-- Escaping of one character with a code point outside the seven specially
named escapes, by `json.dumps` with `ensure_ascii=True`: unescaped printable
ASCII, `\uXXXX` for other control/non-ASCII characters, surrogate pairs for
astral characters. -/
def jEscapeOther (c : Char) : List Char :=
  if c.toNat < 32 then '\\' :: 'u' :: hex4 c.toNat
  else if c.toNat < 127 then [c]
  else if c.toNat < 65536 then '\\' :: 'u' :: hex4 c.toNat
  else
    '\\' :: 'u' :: hex4 (55296 + (c.toNat - 65536) / 1024) ++
      '\\' :: 'u' :: hex4 (56320 + (c.toNat - 65536) % 1024)

/-- Escaping of one character by `json.dumps` with `ensure_ascii=True`
(conditions stated on the code point; 34/92/10/13/9/8/12 are the characters
with two-character escapes). -/
def jEscapeChar (c : Char) : List Char :=
  if c.toNat = 34 then ['\\', '"']
  else if c.toNat = 92 then ['\\', '\\']
  else if c.toNat = 10 then ['\\', 'n']
  else if c.toNat = 13 then ['\\', 'r']
  else if c.toNat = 9 then ['\\', 't']
  else if c.toNat = 8 then ['\\', 'b']
  else if c.toNat = 12 then ['\\', 'f']
  else jEscapeOther c

/-- JSON string literal rendering (opening quote, escaped characters, closing
quote). -/
def jStrChars (l : List Char) : List Char :=
  '"' :: l.foldr (fun c acc => jEscapeChar c ++ acc) ['"']

theorem hex4_printable (n : Nat) : ∀ c ∈ hex4 n, printable c := by
  intro c hc
  simp [hex4] at hc
  rcases hc with h | h | h | h <;> subst h <;>
    exact hexDigitChar_printable _ (Nat.mod_lt _ (by omega))

theorem jEscapeOther_printable (c : Char) : ∀ x ∈ jEscapeOther c, printable x := by
  intro x hx
  unfold jEscapeOther at hx
  split_ifs at hx with h1 h2 h3
  · rcases List.mem_cons.1 hx with h | h
    · subst h; decide
    · rcases List.mem_cons.1 h with h' | h'
      · subst h'; decide
      · exact hex4_printable _ x h'
  · rcases List.mem_cons.1 hx with h | h
    · subst h
      constructor <;> omega
    · simp at h
  · rcases List.mem_cons.1 hx with h | h
    · subst h; decide
    · rcases List.mem_cons.1 h with h' | h'
      · subst h'; decide
      · exact hex4_printable _ x h'
  · rcases List.mem_cons.1 hx with h | h
    · subst h; decide
    · rcases List.mem_cons.1 h with h' | h'
      · subst h'; decide
      · rcases List.mem_append.1 h' with ha | hb
        · exact hex4_printable _ x ha
        · rcases List.mem_cons.1 hb with h2' | h2'
          · subst h2'; decide
          · rcases List.mem_cons.1 h2' with h3' | h3'
            · subst h3'; decide
            · exact hex4_printable _ x h3'

theorem jEscapeChar_printable (c : Char) : ∀ x ∈ jEscapeChar c, printable x := by
  intro x hx
  unfold jEscapeChar at hx
  split_ifs at hx with h1 h2 h3 h4 h5 h6 h7
  · rcases List.mem_cons.1 hx with h | h
    · subst h; decide
    · simp at h; subst h; decide
  · rcases List.mem_cons.1 hx with h | h
    · subst h; decide
    · simp at h; subst h; decide
  · rcases List.mem_cons.1 hx with h | h
    · subst h; decide
    · simp at h; subst h; decide
  · rcases List.mem_cons.1 hx with h | h
    · subst h; decide
    · simp at h; subst h; decide
  · rcases List.mem_cons.1 hx with h | h
    · subst h; decide
    · simp at h; subst h; decide
  · rcases List.mem_cons.1 hx with h | h
    · subst h; decide
    · simp at h; subst h; decide
  · rcases List.mem_cons.1 hx with h | h
    · subst h; decide
    · simp at h; subst h; decide
  · exact jEscapeOther_printable c x hx

theorem jStrFold_printable (l : List Char) :
    ∀ x ∈ l.foldr (fun c acc => jEscapeChar c ++ acc) ['"'], printable x := by
  induction l with
  | nil =>
    intro x hx
    simp at hx
    subst hx
    decide
  | cons c cs ih =>
    intro x hx
    simp only [List.foldr] at hx
    rcases List.mem_append.1 hx with h1 | h2
    · exact jEscapeChar_printable c x h1
    · exact ih x h2

theorem jStrChars_printable (l : List Char) : ∀ x ∈ jStrChars l, printable x := by
  intro x hx
  rcases List.mem_cons.1 hx with h | h
  · subst h; decide
  · exact jStrFold_printable l x h

mutual
/-- Rendering of a JSON value by Python `json.dumps` with default arguments
(separators a comma-space and a colon-space, `ensure_ascii=True`). -/
def dumpsV : JVal → List Char
  | .null => "null".data
  | .bool b => if b then "true".data else "false".data
  | .num n => intReprChars n
  | .str s => jStrChars s.data
  | .arr xs => '[' :: (dumpsL xs ++ [']'])
  | .obj xs => Char.ofNat 123 :: (dumpsF xs ++ [Char.ofNat 125])
/-- Rendering of JSON array elements joined by comma-space. -/
def dumpsL : JList → List Char
  | .nil => []
  | .cons v .nil => dumpsV v
  | .cons v (.cons w tl) => dumpsV v ++ (',' :: ' ' :: dumpsL (.cons w tl))
/-- Rendering of JSON object fields joined by comma-space, each a key string,
colon-space, and value. -/
def dumpsF : JFields → List Char
  | .nil => []
  | .cons k v .nil => jStrChars k.data ++ (':' :: ' ' :: dumpsV v)
  | .cons k v (.cons k2 w tl) =>
      jStrChars k.data ++ (':' :: ' ' :: (dumpsV v ++ (',' :: ' ' :: dumpsF (.cons k2 w tl))))
end

/-- Python `json.dumps` (default arguments) as a Lean string. -/
def dumps (v : JVal) : String := ⟨dumpsV v⟩

mutual
theorem dumpsV_printable : ∀ v : JVal, ∀ c ∈ dumpsV v, printable c
  | .null => by decide
  | .bool b => by cases b <;> decide
  | .num n => by
    intro c hc
    simp only [dumpsV] at hc
    exact intReprChars_printable n c hc
  | .str s => by
    intro c hc
    simp only [dumpsV] at hc
    exact jStrChars_printable s.data c hc
  | .arr xs => by
    intro c hc
    simp only [dumpsV] at hc
    rcases List.mem_cons.1 hc with h | h
    · subst h; decide
    · rcases List.mem_append.1 h with h1 | h2
      · exact dumpsL_printable xs c h1
      · simp at h2; subst h2; decide
  | .obj xs => by
    intro c hc
    simp only [dumpsV] at hc
    rcases List.mem_cons.1 hc with h | h
    · subst h; decide
    · rcases List.mem_append.1 h with h1 | h2
      · exact dumpsF_printable xs c h1
      · simp at h2; subst h2; decide

theorem dumpsL_printable : ∀ xs : JList, ∀ c ∈ dumpsL xs, printable c
  | .nil => by intro c hc; simp [dumpsL] at hc
  | .cons v .nil => by
    intro c hc
    simp only [dumpsL] at hc
    exact dumpsV_printable v c hc
  | .cons v (.cons w tl) => by
    intro c hc
    simp only [dumpsL] at hc
    rcases List.mem_append.1 hc with h1 | h2
    · exact dumpsV_printable v c h1
    · rcases List.mem_cons.1 h2 with h | h
      · subst h; decide
      · rcases List.mem_cons.1 h with h' | h'
        · subst h'; decide
        · exact dumpsL_printable (.cons w tl) c h'

theorem dumpsF_printable : ∀ xs : JFields, ∀ c ∈ dumpsF xs, printable c
  | .nil => by intro c hc; simp [dumpsF] at hc
  | .cons k v .nil => by
    intro c hc
    simp only [dumpsF] at hc
    rcases List.mem_append.1 hc with h1 | h2
    · exact jStrChars_printable k.data c h1
    · rcases List.mem_cons.1 h2 with h | h
      · subst h; decide
      · rcases List.mem_cons.1 h with h' | h'
        · subst h'; decide
        · exact dumpsV_printable v c h'
  | .cons k v (.cons k2 w tl) => by
    intro c hc
    simp only [dumpsF] at hc
    rcases List.mem_append.1 hc with h1 | h2
    · exact jStrChars_printable k.data c h1
    · rcases List.mem_cons.1 h2 with h | h
      · subst h; decide
      · rcases List.mem_cons.1 h with h' | h'
        · subst h'; decide
        · rcases List.mem_append.1 h' with ha | hb
          · exact dumpsV_printable v c ha
          · rcases List.mem_cons.1 hb with hx | hx
            · subst hx; decide
            · rcases List.mem_cons.1 hx with hy | hy
              · subst hy; decide
              · exact dumpsF_printable (.cons k2 w tl) c hy
end

/-- Bytes of the serialized JSON body, exactly `json.dumps(data).encode()`. -/
def dumpsBytes (v : JVal) : List Nat := utf8Enc (dumpsV v)

theorem dumpsBytes_eq_map (v : JVal) : dumpsBytes v = (dumpsV v).map Char.toNat :=
  utf8Enc_ascii _ (fun c hc => by have := dumpsV_printable v c hc; omega)

theorem dumpsBytes_printable (v : JVal) : ∀ b ∈ dumpsBytes v, 32 ≤ b ∧ b ≤ 126 :=
  utf8Enc_printable _ (dumpsV_printable v)

/-- The replacement character U+FFFD emitted for invalid UTF-8 input. -/
def fffd : Char := Char.ofNat 65533

/-- Test for a UTF-8 continuation byte. -/
def isCont (b : Nat) : Bool := 128 ≤ b && b ≤ 191

/-- Valid ranges of the first continuation byte of a three-byte sequence,
depending on the lead byte (excludes overlong forms and surrogates). -/
def cont1ok3 (b b1 : Nat) : Bool :=
  if b = 224 then 160 ≤ b1 && b1 ≤ 191
  else if b = 237 then 128 ≤ b1 && b1 ≤ 159
  else isCont b1

/-- Valid ranges of the first continuation byte of a four-byte sequence,
depending on the lead byte (excludes overlong forms and planes above 16). -/
def cont1ok4 (b b1 : Nat) : Bool :=
  if b = 240 then 144 ≤ b1 && b1 ≤ 191
  else if b = 244 then 128 ≤ b1 && b1 ≤ 143
  else isCont b1

/-- UTF-8 decoding with replacement, as Python `bytes.decode("utf-8",
errors="replace")`: each maximal subpart of an ill-formed sequence is replaced
by one U+FFFD, decoding resumes at the offending byte. -/
def u8d : List Nat → List Char
  | [] => []
  | b :: rest =>
    if b < 128 then Char.ofNat b :: u8d rest
    else if 194 ≤ b && b ≤ 223 then
      match hm1 : rest with
      | [] => [fffd]
      | b1 :: rest1 =>
        if isCont b1 then Char.ofNat ((b - 192) * 64 + (b1 - 128)) :: u8d rest1
        else fffd :: u8d rest
    else if 224 ≤ b && b ≤ 239 then
      match hm1 : rest with
      | [] => [fffd]
      | b1 :: rest1 =>
        if cont1ok3 b b1 then
          match hm2 : rest1 with
          | [] => [fffd]
          | b2 :: rest2 =>
            if isCont b2 then
              Char.ofNat ((b - 224) * 4096 + (b1 - 128) * 64 + (b2 - 128)) :: u8d rest2
            else fffd :: u8d rest1
        else fffd :: u8d rest
    else if 240 ≤ b && b ≤ 244 then
      match hm1 : rest with
      | [] => [fffd]
      | b1 :: rest1 =>
        if cont1ok4 b b1 then
          match hm2 : rest1 with
          | [] => [fffd]
          | b2 :: rest2 =>
            if isCont b2 then
              match hm3 : rest2 with
              | [] => [fffd]
              | b3 :: rest3 =>
                if isCont b3 then
                  Char.ofNat ((b - 240) * 262144 + (b1 - 128) * 4096 +
                    (b2 - 128) * 64 + (b3 - 128)) :: u8d rest3
                else fffd :: u8d rest2
            else fffd :: u8d rest1
        else fffd :: u8d rest
    else fffd :: u8d rest
termination_by l => l.length
decreasing_by all_goals (subst_vars; simp; try omega)

/-- Python `bytes.decode("utf-8", errors="replace")` as a Lean string. -/
def pyDecode (l : List Nat) : String := ⟨u8d l⟩

/-- Python dict assignment `d[k] = v`: replace in place when the key exists
(keeping its position), else append. -/
def dictSet (d : List (String × String)) (k v : String) : List (String × String) :=
  match d with
  | [] => [(k, v)]
  | (k0, v0) :: rest => if k0 = k then (k0, v) :: rest else (k0, v0) :: dictSet rest k v

/-- Python dict lookup `d.get(k)`; association lists built by `dictSet` bind
each key once, so the first match is the binding. -/
def dictGet {α β : Type} [DecidableEq α] (d : List (α × β)) (k : α) : Option β :=
  match d with
  | [] => none
  | (k0, v) :: rest => if k0 = k then some v else dictGet rest k

/-- The fixed status-to-reason-phrase table `_HTTP_REASONS`. -/
def httpReasons : List (Int × String) :=
  [(200, "OK"), (201, "Created"), (204, "No Content"),
    (400, "Bad Request"), (401, "Unauthorized"), (403, "Forbidden"),
    (404, "Not Found"), (405, "Method Not Allowed"), (409, "Conflict"),
    (500, "Internal Server Error"), (502, "Bad Gateway"), (503, "Service Unavailable")]

/-- Reason phrase selection `_HTTP_REASONS.get(status, "Unknown")`. -/
def reasonFor (status : Int) : String := (dictGet httpReasons status).getD "Unknown"

/-- Header text of `_json_response`: the f-string of the source rendered with
the status, its reason phrase and the body byte count. -/
def jsonRespHeaderChars (status : Int) (n : Nat) : List Char :=
  "HTTP/1.1 ".data ++ (intReprChars status ++ (' ' :: ((reasonFor status).data ++
    ("\r\nContent-Type: application/json\r\nContent-Length: ".data ++ (natReprChars n ++
    "\r\nConnection: close\r\n\r\n".data)))))

/-- The `_json_response` helper: encoded header f-string, then the serialized
JSON body `json.dumps(data).encode()`. -/
def jsonResponse (data : JVal) (status : Int) : List Nat :=
  utf8Enc (jsonRespHeaderChars status (dumpsBytes data).length) ++ dumpsBytes data

/-- The `_sse_header` response head. -/
def sseHeaderBytes : List Nat :=
  utf8Str "HTTP/1.1 200 OK\r\nContent-Type: text/event-stream\r\nCache-Control: no-cache\r\nTransfer-Encoding: chunked\r\nConnection: close\r\n\r\n"

/-- The SSE data block `f"data: {data}\n\n".encode()` of `_sse_chunk`. -/
def ssePayload (data : String) : List Nat := utf8Str ("data: " ++ data ++ "\n\n")

/-- The `_sse_chunk` helper: one HTTP chunk holding the SSE data block —
lowercase hex byte length and CRLF, then the block, then CRLF. -/
def sseChunk (data : String) : List Nat :=
  utf8Enc (hexReprChars (ssePayload data).length ++ "\r\n".data) ++
    (ssePayload data ++ [13, 10])

/-- The `_sse_end` terminating zero-length chunk `b"0\r\n\r\n"`. -/
def sseEnd : List Nat := utf8Str "0\r\n\r\n"

/-- Split at the first occurrence of one character: Python `str.partition` and
one step of `str.split(sep, maxsplit)`. -/
def splitChar1 (sep : Char) : List Char → Option (List Char × List Char)
  | [] => none
  | c :: cs =>
    if c = sep then some ([], cs)
    else (splitChar1 sep cs).map (fun p => (c :: p.1, p.2))

/-- Python `request_line.split(" ", 2)`. -/
def pySplit2 (l : List Char) : List (List Char) :=
  match splitChar1 ' ' l with
  | none => [l]
  | some (a, b) =>
    match splitChar1 ' ' b with
    | none => [a, b]
    | some (a2, b2) => [a, a2, b2]

/-- Python `str.split("\r\n")`: split on every non-overlapping occurrence,
left to right. -/
def splitCRLF : List Char → List (List Char)
  | [] => [[]]
  | '\r' :: '\n' :: rest => [] :: splitCRLF rest
  | c :: rest =>
    match splitCRLF rest with
    | [] => [[c]]
    | l :: ls => (c :: l) :: ls

/-- Header line decoding of `_read_request`: when the line holds a colon,
partition at the first one, strip and lower-case the key, strip the value. -/
def headerEntry (line : List Char) : Option (String × String) :=
  match splitChar1 ':' line with
  | some kv => some (⟨pyLower (pyStrip kv.1)⟩, ⟨pyStrip kv.2⟩)
  | none => none

/-- The header dict built by the loop over `lines[1:]` of `_read_request`;
later duplicates overwrite via dict assignment. -/
def headersOfLines (lines : List (List Char)) : List (String × String) :=
  lines.foldl (fun hs line =>
    match headerEntry line with
    | some kv => dictSet hs kv.1 kv.2
    | none => hs) []

/-- Python `int(s)` digit scanning after the first digit: digits with single
underscores allowed between digits only. -/
def pyIntCore : List Char → Nat → Option Nat
  | [], acc => some acc
  | c :: cs, acc =>
    if c.isDigit then pyIntCore cs (10 * acc + (c.toNat - 48))
    else if c = '_' then
      match hm : cs with
      | c2 :: cs2 => if c2.isDigit then pyIntCore cs2 (10 * acc + (c2.toNat - 48)) else none
      | [] => none
    else none
termination_by l => l.length
decreasing_by all_goals (subst_vars; simp; try omega)

/-- Python `int(s)` in base 10: optional whitespace and sign, then digits with
optional single underscores between them; anything else raises `ValueError`,
modelled as `none`. -/
def pyInt (s : String) : Option Int :=
  match pyStrip s.data with
  | '-' :: c :: cs =>
    if c.isDigit then (pyIntCore cs (c.toNat - 48)).map (fun n => -(n : Int)) else none
  | '+' :: c :: cs =>
    if c.isDigit then (pyIntCore cs (c.toNat - 48)).map (fun n => (n : Int)) else none
  | c :: cs => if c.isDigit then (pyIntCore cs (c.toNat - 48)).map (fun n => (n : Int)) else none
  | [] => none

/-- Match of a fixed prefix, returning the remainder of the list. -/
def stripPre : List Char → List Char → Option (List Char)
  | [], l => some l
  | p :: ps, c :: cs => if c = p then stripPre ps cs else none
  | _ :: _, [] => none

/-- First code points of the Unicode `Nd` (decimal digit) ranges; each range
spans ten consecutive code points carrying digit values 0 through 9.  This is
the character class a `str`-pattern regex `\d` matches and `int()` parses
(Unicode 14.0, CPython 3.11's table). -/
def ndStarts : List Nat :=
  [48, 1632, 1776, 1984, 2406, 2534, 2662, 2790, 2918, 3046, 3174, 3302, 3430,
   3558, 3664, 3792, 3872, 4160, 4240, 6112, 6160, 6470, 6608, 6784, 6800,
   6992, 7088, 7232, 7248, 42528, 43216, 43264, 43472, 43504, 43600, 44016,
   65296, 66720, 68912, 69734, 69872, 69942, 70096, 70384, 70736, 70864,
   71248, 71360, 71472, 71904, 72016, 72784, 73040, 73120, 92768, 92864,
   93008, 120782, 120792, 120802, 120812, 120822, 123200, 123632, 125264,
   130032]

/-- Digit value of a Unicode decimal digit (category `Nd`); `none` off the
class. -/
def ndVal (c : Char) : Option Nat :=
  (ndStarts.find? (fun s => decide (s ≤ c.toNat) && decide (c.toNat < s + 10))).map
    (fun s => c.toNat - s)

/-- The regex character class `\d` of a `str` pattern: any Unicode decimal
digit. -/
def isNd (c : Char) : Bool := (ndVal c).isSome

/-- Base-10 value of a string of Unicode decimal digits, as `int()` computes
it on the captured `\d+` group. -/
def ndDigitsVal (l : List Char) : Nat := l.foldl (fun a c => 10 * a + (ndVal c).getD 0) 0

/-- The parametric route patterns `re.fullmatch(r"<pre>(\d+)", path)` with the
captured integer, `int(m.group(1))`: `\d` matches any Unicode decimal digit
and `int()` combines the digit values positionally. -/
def matchIntRoute (pre : String) (path : String) : Option Nat :=
  match stripPre pre.data path.data with
  | some rest => if !rest.isEmpty && rest.all isNd then some (ndDigitsVal rest) else none
  | none => none

theorem isDigit_bounds (c : Char) (h : c.isDigit = true) :
    48 ≤ c.toNat ∧ c.toNat < 58 := by
  simp only [Char.isDigit, Bool.and_eq_true, decide_eq_true_eq] at h
  obtain ⟨h1, h2⟩ := h
  have t1 : (48 : Nat) ≤ c.toNat := h1
  have t2 : c.toNat ≤ (57 : Nat) := h2
  exact ⟨t1, by omega⟩

theorem ndVal_ascii (c : Char) (h : c.isDigit = true) : ndVal c = some (c.toNat - 48) := by
  obtain ⟨h1, h2⟩ := isDigit_bounds c h
  unfold ndVal ndStarts
  rw [List.find?_cons_of_pos]
  · rfl
  · simp only [Bool.and_eq_true, decide_eq_true_eq]
    exact ⟨h1, by omega⟩

theorem isNd_of_isDigit (c : Char) (h : c.isDigit = true) : isNd c = true := by
  rw [isNd, ndVal_ascii c h]
  rfl

theorem ndDigitsVal_ascii_aux (l : List Char) (h : ∀ c ∈ l, c.isDigit = true) (a : Nat) :
    l.foldl (fun a c => 10 * a + (ndVal c).getD 0) a =
    l.foldl (fun a c => 10 * a + (c.toNat - 48)) a := by
  induction l generalizing a with
  | nil => rfl
  | cons c cs ih =>
    simp only [List.foldl_cons]
    rw [ndVal_ascii c (h c (by simp))]
    exact ih (fun x hx => h x (by simp [hx])) _

/-- On ASCII digit strings the Unicode digit value agrees with the ASCII
one. -/
theorem ndDigitsVal_ascii (l : List Char) (h : ∀ c ∈ l, c.isDigit = true) :
    ndDigitsVal l = digitsVal l := ndDigitsVal_ascii_aux l h 0

/-- One effect of a route handler on the connection: a write, a drain, or an
`asyncio.sleep` of the given milliseconds. -/
inductive Ev where
  | wr (bytes : List Nat)
  | drain
  | sleepMs (ms : Nat)
deriving DecidableEq

/-- The byte strings written, in order. -/
def writesOf (evs : List Ev) : List (List Nat) :=
  evs.filterMap (fun e => match e with | .wr b => some b | _ => none)

/-- Payload of `GET /health`. -/
def healthJson : JVal := jobj [("status", .str "ok")]

/-- Payload of `POST /echo`: the decoded header dict and the body decoded as
UTF-8 with replacement. -/
def echoJson (headers : List (String × String)) (body : List Nat) : JVal :=
  jobj [("headers", jobj (headers.map (fun kv => (kv.1, JVal.str kv.2)))),
    ("body", .str (pyDecode body))]

/-- Payload of `POST /v1/chat/completions`. -/
def completionJson : JVal :=
  jobj [("id", .str "chatcmpl-mock-123"), ("object", .str "chat.completion"),
    ("created", .num 1234567890), ("model", .str "gpt-4-mock"),
    ("choices", jarr [jobj [("index", .num 0),
      ("message", jobj [("role", .str "assistant"), ("content", .str "Hello from mock server")]),
      ("finish_reason", .str "stop")]]),
    ("usage", jobj [("prompt_tokens", .num 10), ("completion_tokens", .num 20),
      ("total_tokens", .num 30)])]

/-- Payload of `GET /v1/models`. -/
def modelsJson : JVal :=
  jobj [("object", .str "list"),
    ("data", jarr [
      jobj [("id", .str "gpt-4"), ("object", .str "model"), ("created", .num 1234567890),
        ("owned_by", .str "openai")],
      jobj [("id", .str "gpt-3.5-turbo"), ("object", .str "model"),
        ("created", .num 1234567890), ("owned_by", .str "openai")]])]

/-- Payload of `GET /error/timeout` (after the 30 s sleep). -/
def timeoutJson : JVal := jobj [("error", .str "timeout")]

/-- Payload of the 404 fallback. -/
def notFoundJson : JVal := jobj [("error", .str "not found")]

/-- Error envelope of `GET /error/(digits)` for the captured code. -/
def errorEnvelopeJson (code : Nat) : JVal :=
  jobj [("error", jobj [("message", .str ("Simulated error " ++ pyNatRepr code)),
    ("type", .str "server_error"), ("code", .str ("error_" ++ pyNatRepr code))])]

/-- Payload of `GET /status/(digits)` for the captured code. -/
def statusRouteJson (code : Nat) : JVal :=
  jobj [("status", .num code), ("description", .str ("Status " ++ pyNatRepr code))]

/-- Words streamed by `POST /v1/chat/completions/stream`. -/
def streamWords : List String := ["Hello", " from", " mock", " server"]

/-- Delta object of the i-th word frame: `role` on the first frame only, then
the word content. -/
def wordDelta (i : Nat) (w : String) : JVal :=
  if i = 0 then jobj [("role", .str "assistant"), ("content", .str w)]
  else jobj [("content", .str w)]

/-- JSON chat-completion-chunk of the i-th word frame of the stream route. -/
def wordChunkJson (i : Nat) (w : String) : JVal :=
  jobj [("id", .str "chatcmpl-mock-stream"), ("object", .str "chat.completion.chunk"),
    ("created", .num 1234567890), ("model", .str "gpt-4-mock"),
    ("choices", jarr [jobj [("index", .num 0), ("delta", wordDelta i w),
      ("finish_reason", .null)]])]

/-- JSON of the final frame of the stream route: empty delta, stop. -/
def finalChunkJson : JVal :=
  jobj [("id", .str "chatcmpl-mock-stream"), ("object", .str "chat.completion.chunk"),
    ("created", .num 1234567890), ("model", .str "gpt-4-mock"),
    ("choices", jarr [jobj [("index", .num 0), ("delta", jobj []),
      ("finish_reason", .str "stop")]])]

/-- Events of the stream route: SSE header, then per word a chunk write, a
drain and a 10 ms sleep, then the stop frame, the `[DONE]` frame and the
terminating chunk. -/
def streamEvents : List Ev :=
  [Ev.wr sseHeaderBytes] ++
    ((streamWords.enum.map (fun iw =>
      [Ev.wr (sseChunk (dumps (wordChunkJson iw.1 iw.2))), Ev.drain, Ev.sleepMs 10])).flatten ++
    [Ev.wr (sseChunk (dumps finalChunkJson)), Ev.wr (sseChunk "[DONE]"), Ev.wr sseEnd])

/-- The `_handle` router: writes, drains and sleeps performed for a decoded
request, following the source's `if`/`elif` chain in order. -/
def handle (method path : String) (headers : List (String × String)) (body : List Nat) :
    List Ev :=
  if method = "GET" ∧ path = "/health" then [.wr (jsonResponse healthJson 200)]
  else if method = "POST" ∧ path = "/echo" then
    [.wr (jsonResponse (echoJson headers body) 200)]
  else if method = "POST" ∧ path = "/v1/chat/completions/stream" then streamEvents
  else if method = "POST" ∧ path = "/v1/chat/completions" then
    [.wr (jsonResponse completionJson 200)]
  else if method = "GET" ∧ path = "/v1/models" then [.wr (jsonResponse modelsJson 200)]
  else if method = "GET" ∧ path = "/error/timeout" then
    [.sleepMs 30000, .wr (jsonResponse timeoutJson 200)]
  else if method = "GET" then
    match matchIntRoute "/error/" path with
    | some code => [.wr (jsonResponse (errorEnvelopeJson code) code)]
    | none =>
      match matchIntRoute "/status/" path with
      | some code => [.wr (jsonResponse (statusRouteJson code) code)]
      | none => [.wr (jsonResponse notFoundJson 404)]
  else [.wr (jsonResponse notFoundJson 404)]

/-- Test for an occurrence of `sep` anywhere in `l` (Python `sep in data`). -/
def hasSub (sep : List Nat) : List Nat → Bool
  | [] => sep.isPrefixOf []
  | b :: rest => sep.isPrefixOf (b :: rest) || hasSub sep rest

/-- Python `bytes.partition(sep)` reduced to the two interesting components:
text before the first occurrence and text after it; when `sep` does not occur
the pair is the whole input and the empty string. -/
def partitionSub (sep : List Nat) : List Nat → List Nat × List Nat
  | [] => ([], [])
  | b :: rest =>
    if sep.isPrefixOf (b :: rest) then ([], (b :: rest).drop sep.length)
    else
      let p := partitionSub sep rest
      (b :: p.1, p.2)

/-- A network stream: the byte chunks successive reads deliver.  An exhausted
list is end of stream; an empty chunk stops the read loop that meets it, as a
closed peer does (`wellFormed` streams have none). -/
abbrev NetStream := List (List Nat)

/-- `reader.read(n)`: up to `n` bytes, the rest of an oversized chunk stays
buffered; the empty string at end of stream. -/
def readAtMost (n : Nat) : NetStream → List Nat × NetStream
  | [] => ([], [])
  | c :: rest => if c.length ≤ n then (c, rest) else (c.take n, c.drop n :: rest)

/-- Size measure of a stream used for termination of the read loops. -/
def streamSize (s : NetStream) : Nat := s.foldr (fun c a => c.length + 1 + a) 0

theorem readAtMost_size (n : Nat) (s : NetStream) (c : List Nat) (s' : NetStream)
    (h : readAtMost n s = (c, s')) (hc : c ≠ []) : streamSize s' < streamSize s := by
  match s with
  | [] =>
    simp [readAtMost] at h
    exact absurd h.1 hc
  | c0 :: rest =>
    simp only [readAtMost] at h
    by_cases hl : c0.length ≤ n
    · rw [if_pos hl] at h
      cases h
      simp [streamSize]
      try omega
    · rw [if_neg hl] at h
      cases h
      have hn : 0 < n := by
        rcases Nat.eq_zero_or_pos n with h0 | h0
        · subst h0
          simp at hc
        · exact h0
      simp [streamSize]
      omega

theorem readAtMost_length (n : Nat) (s : NetStream) (c : List Nat) (s' : NetStream)
    (h : readAtMost n s = (c, s')) : c.length ≤ n := by
  match s with
  | [] =>
    simp [readAtMost] at h
    rw [h.1]
    simp
  | c0 :: rest =>
    simp only [readAtMost] at h
    by_cases hl : c0.length ≤ n
    · rw [if_pos hl] at h
      cases h
      exact hl
    · rw [if_neg hl] at h
      cases h
      simp

/-- The header loop of `_read_request`: accumulate 4096-byte reads until the
data holds CRLFCRLF or the stream ends; returns the accumulated data and the
remaining stream. -/
def headerLoop (acc : List Nat) (s : NetStream) : List Nat × NetStream :=
  if hasSub [13, 10, 13, 10] acc then (acc, s)
  else
    match hr : readAtMost 4096 s with
    | ([], s') => (acc, s')
    | (b :: bs, s') => headerLoop (acc ++ b :: bs) s'
termination_by streamSize s
decreasing_by exact readAtMost_size 4096 s (b :: bs) s' hr (by simp)

/-- The body loop of `_read_request`: read until the collected body reaches
the declared content length or the stream ends. -/
def bodyLoop (body : List Nat) (cl : Int) (s : NetStream) : List Nat :=
  if (body.length : Int) < cl then
    match hr : readAtMost (cl - body.length).toNat s with
    | ([], _) => body
    | (b :: bs, s') => bodyLoop (body ++ b :: bs) cl s'
  else body
termination_by (cl - body.length).toNat
decreasing_by
  have hle := readAtMost_length _ _ _ _ hr
  simp at hle ⊢
  omega

/-- Decoding part of `_read_request`: from the accumulated header data, the
method and path (with Python defaults), the header dict, and the body bytes
already read past the header terminator. -/
def decodePart (headerData : List Nat) :
    String × String × List (String × String) × List Nat :=
  let hp := (partitionSub [13, 10, 13, 10] headerData).1
  let bodyStart := (partitionSub [13, 10, 13, 10] headerData).2
  let lines := splitCRLF (u8d hp)
  let parts := pySplit2 (lines.headD [])
  let method : String := match parts with
    | [] => "GET"
    | m :: _ => ⟨m⟩
  let path : String := match parts with
    | _ :: p :: _ => ⟨p⟩
    | _ => "/"
  (method, path, headersOfLines (lines.drop 1), bodyStart)

/-- The `_read_request` coroutine over a stream of byte chunks.  `none` models
an exception escaping it (as when a non-numeric `Content-Length` value makes
`int` raise `ValueError`). -/
def readRequest (s : NetStream) :
    Option (String × String × List (String × String) × List Nat) :=
  let hl := headerLoop [] s
  let dp := decodePart hl.1
  match pyInt ((dictGet dp.2.2.1 "content-length").getD "0") with
  | none => none
  | some cl => some (dp.1, dp.2.1, dp.2.2.1, bodyLoop dp.2.2.2 cl hl.2)

/-- Consumer-side line split: bytes before the first CRLF, and bytes after. -/
def takeLineB : List Nat → Option (List Nat × List Nat)
  | [] => none
  | b :: rest =>
    if b = 13 then
      match rest with
      | 10 :: r2 => some ([], r2)
      | _ => (takeLineB rest).map (fun p => (b :: p.1, p.2))
    else (takeLineB rest).map (fun p => (b :: p.1, p.2))

/-- Consumer-side split of `n` CRLF-terminated lines from a response. -/
def takeLinesB : Nat → List Nat → Option (List (List Nat) × List Nat)
  | 0, l => some ([], l)
  | n + 1, l =>
    match takeLineB l with
    | some lr =>
      match takeLinesB n lr.2 with
      | some p => some (lr.1 :: p.1, p.2)
      | none => none
    | none => none

/-- Longest hexadecimal-digit run at the head of the input, and the rest. -/
def hexSpan : List Nat → List Nat × List Nat
  | [] => ([], [])
  | b :: rest =>
    if isHexByte b then
      let p := hexSpan rest
      (b :: p.1, p.2)
    else ([], b :: rest)

/-- Consumer-side decoding of a single complete HTTP chunk: hex size digits,
CRLF, that many payload bytes, CRLF, end of input; `none` on bad framing. -/
def chunkDecode (l : List Nat) : Option (List Nat) :=
  match hexSpan l with
  | ([], _) => none
  | (h :: hs, rest) =>
    match rest with
    | 13 :: 10 :: r2 =>
      if r2.drop (hexBytesVal (h :: hs)) = [13, 10] then
        some (r2.take (hexBytesVal (h :: hs)))
      else none
    | _ => none

/-- Routes recognised by the `_handle` chain (conditions in source order). -/
def routeMatches (method path : String) : Bool :=
  (method == "GET" && path == "/health") ||
  (method == "POST" && path == "/echo") ||
  (method == "POST" && path == "/v1/chat/completions/stream") ||
  (method == "POST" && path == "/v1/chat/completions") ||
  (method == "GET" && path == "/v1/models") ||
  (method == "GET" && path == "/error/timeout") ||
  (method == "GET" && (matchIntRoute "/error/" path).isSome) ||
  (method == "GET" && (matchIntRoute "/status/" path).isSome)

theorem hexReprChars_ne_nil (n : Nat) : hexReprChars n ≠ [] := by
  rw [hexReprChars_step]
  by_cases h : n < 16 <;> simp [h]

theorem takeLineB_append (a b : List Nat) (ha : ∀ x ∈ a, x ≠ 13) :
    takeLineB (a ++ 13 :: 10 :: b) = some (a, b) := by
  induction a with
  | nil => simp [takeLineB]
  | cons x xs ih =>
    have hx : x ≠ 13 := ha x (by simp)
    rw [List.cons_append]
    simp only [takeLineB, if_neg hx, ih (fun y hy => ha y (by simp [hy])), Option.map]

theorem hexSpan_append (H r : List Nat) (hH : ∀ b ∈ H, isHexByte b = true)
    (hr : isHexByte (r.headD 0) = false) : hexSpan (H ++ r) = (H, r) := by
  induction H with
  | nil =>
    match r with
    | [] => rfl
    | b :: rs =>
      simp at hr
      simp [hexSpan, hr]
  | cons x xs ih =>
    have hx : isHexByte x = true := hH x (by simp)
    rw [List.cons_append]
    simp only [hexSpan, if_pos hx, ih (fun y hy => hH y (by simp [hy]))]

theorem isHexByte_lt (b : Nat) (h : isHexByte b = true) : 32 ≤ b ∧ b ≤ 126 := by
  simp only [isHexByte, Bool.or_eq_true, Bool.and_eq_true, decide_eq_true_eq] at h
  rcases h with (h | h) | h <;> omega

theorem dictGetD_mem {α : Type} [DecidableEq α] (d : List (α × String)) (k : α) (dflt : String) :
    (dictGet d k).getD dflt = dflt ∨ ∃ kv ∈ d, (dictGet d k).getD dflt = kv.2 := by
  induction d with
  | nil => left; rfl
  | cons kv0 rest ih =>
    by_cases h : kv0.1 = k
    · right
      refine ⟨kv0, by simp, ?_⟩
      simp [dictGet, h]
    · have : dictGet (kv0 :: rest) k = dictGet rest k := by
        simp only [dictGet]
        rw [if_neg h]
      rw [this]
      rcases ih with h1 | ⟨kv, hkv, h2⟩
      · left; exact h1
      · right; exact ⟨kv, by simp [hkv], h2⟩

theorem reasonFor_printable (status : Int) : ∀ c ∈ (reasonFor status).data, printable c := by
  unfold reasonFor
  rcases dictGetD_mem httpReasons status "Unknown" with h | ⟨kv, hkv, h⟩
  · rw [h]; decide
  · rw [h]
    exact (by decide : ∀ kv ∈ httpReasons, ∀ c ∈ kv.2.data, printable c) kv hkv

/-- First header line bytes of a buffered JSON response. -/
def statusLineBytes (status : Int) : List Nat :=
  utf8Enc ("HTTP/1.1 ".data ++ intReprChars status ++ (' ' :: (reasonFor status).data))

/-- Content-Length header line bytes of a buffered JSON response. -/
def contentLengthLineBytes (n : Nat) : List Nat :=
  utf8Enc ("Content-Length: ".data ++ natReprChars n)

theorem statusLineBytes_printable (status : Int) :
    ∀ b ∈ statusLineBytes status, 32 ≤ b ∧ b ≤ 126 := by
  apply utf8Enc_printable
  intro c hc
  rcases List.mem_append.1 hc with h | h
  · rcases List.mem_append.1 h with h1 | h1
    · exact (by decide : ∀ c ∈ "HTTP/1.1 ".data, printable c) c h1
    · exact intReprChars_printable status c h1
  · rcases List.mem_cons.1 h with h3 | h3
    · subst h3; decide
    · exact reasonFor_printable status c h3

theorem contentLengthLineBytes_printable (n : Nat) :
    ∀ b ∈ contentLengthLineBytes n, 32 ≤ b ∧ b ≤ 126 := by
  apply utf8Enc_printable
  intro c hc
  rcases List.mem_append.1 hc with h | h
  · exact (by decide : ∀ c ∈ "Content-Length: ".data, printable c) c h
  · exact natReprChars_printable n c h

/-- Structure of the full `_json_response` byte string: exactly the status
line, the three fixed headers with the body byte count, a blank line, and the
serialized body. -/
theorem jsonResponse_decomp (d : JVal) (status : Int) :
    jsonResponse d status =
      statusLineBytes status ++ 13 :: 10 ::
        (utf8Str "Content-Type: application/json" ++ 13 :: 10 ::
          (contentLengthLineBytes (dumpsBytes d).length ++ 13 :: 10 ::
            (utf8Str "Connection: close" ++ 13 :: 10 :: (13 :: 10 :: dumpsBytes d)))) := by
  have hsplit : jsonRespHeaderChars status (dumpsBytes d).length =
      ("HTTP/1.1 ".data ++ intReprChars status ++ (' ' :: (reasonFor status).data)) ++
        ('\r' :: '\n' :: "Content-Type: application/json".data) ++
        ('\r' :: '\n' :: ("Content-Length: ".data ++ natReprChars (dumpsBytes d).length)) ++
        ('\r' :: '\n' :: "Connection: close".data) ++ ['\r', '\n', '\r', '\n'] := by
    unfold jsonRespHeaderChars
    have h1 : "\r\nContent-Type: application/json\r\nContent-Length: ".data =
        '\r' :: '\n' :: "Content-Type: application/json".data ++
          '\r' :: '\n' :: "Content-Length: ".data := by decide
    have h2 : "\r\nConnection: close\r\n\r\n".data =
        '\r' :: '\n' :: "Connection: close".data ++ ['\r', '\n', '\r', '\n'] := by decide
    rw [h1, h2]
    simp [List.append_assoc]
  unfold jsonResponse
  rw [hsplit]
  simp only [utf8Enc_append, utf8Enc_cons, statusLineBytes, contentLengthLineBytes, utf8Str]
  have hCR : encodeChar '\r' = [13] := by decide
  have hLF : encodeChar '\n' = [10] := by decide
  rw [hCR, hLF]
  simp [List.append_assoc]
  rfl

/-- Parsing a buffered JSON response from the wire recovers the status line,
the three headers, the blank line and the body. -/
theorem jsonResponse_parse (d : JVal) (status : Int) :
    takeLinesB 5 (jsonResponse d status) =
      some ([statusLineBytes status,
        utf8Str "Content-Type: application/json",
        contentLengthLineBytes (dumpsBytes d).length,
        utf8Str "Connection: close",
        []], dumpsBytes d) := by
  rw [jsonResponse_decomp]
  have t1 := takeLineB_append (statusLineBytes status)
    (utf8Str "Content-Type: application/json" ++ 13 :: 10 ::
      (contentLengthLineBytes (dumpsBytes d).length ++ 13 :: 10 ::
        (utf8Str "Connection: close" ++ 13 :: 10 :: (13 :: 10 :: dumpsBytes d))))
    (fun x hx => by have := statusLineBytes_printable status x hx; omega)
  have t2 := takeLineB_append (utf8Str "Content-Type: application/json")
    (contentLengthLineBytes (dumpsBytes d).length ++ 13 :: 10 ::
      (utf8Str "Connection: close" ++ 13 :: 10 :: (13 :: 10 :: dumpsBytes d)))
    (fun x hx => by
      have := utf8Enc_printable "Content-Type: application/json".data (by decide) x hx
      omega)
  have t3 := takeLineB_append (contentLengthLineBytes (dumpsBytes d).length)
    (utf8Str "Connection: close" ++ 13 :: 10 :: (13 :: 10 :: dumpsBytes d))
    (fun x hx => by
      have := contentLengthLineBytes_printable (dumpsBytes d).length x hx
      omega)
  have t4 := takeLineB_append (utf8Str "Connection: close") (13 :: 10 :: dumpsBytes d)
    (fun x hx => by
      have := utf8Enc_printable "Connection: close".data (by decide) x hx
      omega)
  have t5 : takeLineB (13 :: 10 :: dumpsBytes d) = some ([], dumpsBytes d) := by
    simp [takeLineB]
  simp only [takeLinesB, t1, t2, t3, t4, t5]

theorem hexDigitChar_toNat_lt : ∀ k, k < 16 → (hexDigitChar k).toNat < 128 := by decide

theorem hexReprChars_map_toNat (n : Nat) :
    utf8Enc (hexReprChars n) = (hexReprChars n).map Char.toNat :=
  utf8Enc_ascii _ (fun c hc => by
    have := isHexByte_lt c.toNat (hexReprChars_isHex n c hc)
    omega)

/-- Byte-level decomposition of `_sse_chunk`: hex length digits, CRLF, the
data block, CRLF. -/
theorem sseChunk_decomp (data : String) :
    sseChunk data = (hexReprChars (ssePayload data).length).map Char.toNat ++
      13 :: 10 :: (ssePayload data ++ [13, 10]) := by
  unfold sseChunk
  rw [utf8Enc_append, hexReprChars_map_toNat]
  have : utf8Enc "\r\n".data = [13, 10] := by decide
  rw [this]
  simp

/-- Chunk framing round-trip: decoding the HTTP chunk emitted by `_sse_chunk`
yields exactly the SSE data block, so the hex length field is exact. -/
theorem chunkDecode_frame (P : List Nat) :
    chunkDecode ((hexReprChars P.length).map Char.toNat ++ 13 :: 10 :: (P ++ [13, 10])) =
      some P := by
  have hhex : ∀ b ∈ (hexReprChars P.length).map Char.toNat, isHexByte b = true := by
    intro b hb
    rcases List.mem_map.1 hb with ⟨c, hc, rfl⟩
    exact hexReprChars_isHex _ c hc
  have hs := hexSpan_append ((hexReprChars P.length).map Char.toNat)
    (13 :: 10 :: (P ++ [13, 10])) hhex (by rw [List.headD_cons]; decide)
  have hval : hexBytesVal ((hexReprChars P.length).map Char.toNat) = P.length :=
    hexBytesVal_repr P.length
  rcases hne : (hexReprChars P.length).map Char.toNat with _ | ⟨h0, H⟩
  · exact absurd (List.map_eq_nil_iff.1 hne) (hexReprChars_ne_nil P.length)
  · rw [hne] at hs hval
    unfold chunkDecode
    rw [hs]
    show (if (P ++ [13, 10]).drop (hexBytesVal (h0 :: H)) = [13, 10] then
        some ((P ++ [13, 10]).take (hexBytesVal (h0 :: H))) else none) = some P
    rw [hval, List.drop_left, List.take_left]
    simp

theorem dictGet_dictSet (d : List (String × String)) (k v k' : String) :
    dictGet (dictSet d k v) k' = if k = k' then some v else dictGet d k' := by
  induction d with
  | nil => by_cases h : k = k' <;> simp [dictSet, dictGet, h]
  | cons kv0 rest ih =>
    rcases kv0 with ⟨k0, v0⟩
    by_cases h0 : k0 = k
    · subst h0
      by_cases h1 : k0 = k' <;> simp [dictSet, dictGet, h1]
    · by_cases h1 : k0 = k'
      · subst h1
        have hkk : k ≠ k0 := fun hk => h0 hk.symm
        simp [dictSet, dictGet, h0, hkk]
      · simp [dictSet, dictGet, h0, h1, ih]

/-- Lookup in the header dict equals the last matching header line: the
last-value-wins law of the decoder. -/
theorem headersOfLines_get (lines : List (List Char)) (k : String) :
    dictGet (headersOfLines lines) k =
      (((lines.filterMap headerEntry).filter (fun kv => kv.1 = k)).getLast?).map Prod.snd := by
  induction lines using List.reverseRecOn with
  | nil => rfl
  | append_singleton ls l ih =>
    unfold headersOfLines at ih ⊢
    rw [List.foldl_append, List.filterMap_append, List.filter_append]
    simp only [List.foldl, List.filterMap_cons, List.filterMap_nil]
    cases hE : headerEntry l with
    | none =>
      simp only [hE]
      simp [ih]
    | some kv =>
      simp only [hE]
      rw [dictGet_dictSet]
      by_cases hk : kv.1 = k
      · rw [if_pos hk]
        have hf : List.filter (fun kv => decide (kv.1 = k)) [kv] = [kv] := by
          simp [List.filter, hk]
        rw [hf, List.getLast?_concat]
        rfl
      · rw [if_neg hk]
        have hf : List.filter (fun kv => decide (kv.1 = k)) [kv] = [] := by
          simp [List.filter, hk]
        rw [hf, List.append_nil]
        exact ih

/-- Total bytes a stream still holds. -/
def avail (s : NetStream) : Nat := (s.map List.length).sum

/-- A well-formed stream delivers no empty chunk before its end: an empty
read means the peer closed. -/
def wellFormed (s : NetStream) : Prop := ∀ c ∈ s, c ≠ []

theorem readAtMost_avail (n : Nat) (s : NetStream) (c : List Nat) (s' : NetStream)
    (h : readAtMost n s = (c, s')) : avail s = c.length + avail s' := by
  match s with
  | [] =>
    simp [readAtMost] at h
    rw [h.1, h.2]
    simp [avail]
  | c0 :: rest =>
    simp only [readAtMost] at h
    by_cases hl : c0.length ≤ n
    · rw [if_pos hl] at h
      cases h
      simp [avail]
    · rw [if_neg hl] at h
      cases h
      simp [avail, List.length_take, List.length_drop]
      omega

theorem readAtMost_flatten (n : Nat) (s : NetStream) (c : List Nat) (s' : NetStream)
    (h : readAtMost n s = (c, s')) : c ++ s'.flatten = s.flatten := by
  match s with
  | [] =>
    simp [readAtMost] at h
    rw [h.1, h.2]
    rfl
  | c0 :: rest =>
    simp only [readAtMost] at h
    by_cases hl : c0.length ≤ n
    · rw [if_pos hl] at h
      cases h
      simp [List.flatten_cons]
    · rw [if_neg hl] at h
      cases h
      simp only [List.flatten_cons]
      rw [← List.append_assoc, List.take_append_drop]

theorem readAtMost_nil (n : Nat) (s : NetStream) (s₂ : NetStream) (hn : 0 < n)
    (hwf : wellFormed s) (h : readAtMost n s = ([], s₂)) : s = [] := by
  match s with
  | [] => rfl
  | c0 :: rest =>
    simp only [readAtMost] at h
    by_cases hl : c0.length ≤ n
    · rw [if_pos hl] at h
      cases h
      exact absurd rfl (hwf [] (by simp))
    · rw [if_neg hl] at h
      have htk : c0.take n = [] := (Prod.mk.injEq _ _ _ _ ▸ h).1
      have hlen : c0.length = 0 := by
        have := congrArg List.length htk
        simp only [List.length_take, List.length_nil] at this
        omega
      exact absurd (List.eq_nil_of_length_eq_zero hlen) (hwf c0 (by simp))

theorem readAtMost_wf (n : Nat) (s : NetStream) (c : List Nat) (s' : NetStream)
    (hwf : wellFormed s) (h : readAtMost n s = (c, s')) : wellFormed s' := by
  match s with
  | [] =>
    simp [readAtMost] at h
    rw [h.2]
    intro x hx
    simp at hx
  | c0 :: rest =>
    simp only [readAtMost] at h
    by_cases hl : c0.length ≤ n
    · rw [if_pos hl] at h
      cases h
      exact fun x hx => hwf x (by simp [hx])
    · rw [if_neg hl] at h
      cases h
      intro x hx
      rcases List.mem_cons.1 hx with h1 | h1
      · subst h1
        intro hdrop
        have := congrArg List.length hdrop
        simp [List.length_drop] at this
        omega
      · exact hwf x (by simp [h1])

theorem avail_zero (s : NetStream) (hwf : wellFormed s) (h : avail s = 0) : s = [] := by
  match s with
  | [] => rfl
  | c0 :: rest =>
    exfalso
    have hc0 : c0 ≠ [] := hwf c0 (by simp)
    have : 0 < c0.length := List.length_pos.2 hc0
    simp only [avail, List.map_cons, List.sum_cons] at h
    omega

/-- The body loop stops at once when the collected bytes already reach the
declared content length (so over-read bytes are returned as they are). -/
theorem bodyLoop_done (body : List Nat) (cl : Int) (s : NetStream)
    (h : cl ≤ (body.length : Int)) : bodyLoop body cl s = body := by
  conv_lhs => rw [bodyLoop.eq_def]
  rw [if_neg (by omega)]

/-- When the stream holds enough bytes, the body loop returns exactly the
declared content length of bytes (starting from a not-too-long prefix). -/
theorem bodyLoop_full : ∀ (a : Nat) (body : List Nat) (cl : Int) (s : NetStream),
    avail s = a → wellFormed s → (body.length : Int) ≤ cl →
    cl ≤ (body.length : Int) + (a : Int) → (bodyLoop body cl s).length = cl.toNat := by
  intro a
  induction a using Nat.strong_induction_on with
  | _ a ih =>
    intro body cl s ha hwf hlo hhi
    conv_lhs => rw [bodyLoop.eq_def]
    by_cases hg : (body.length : Int) < cl
    · rw [if_pos hg]
      rcases hr : readAtMost (cl - body.length).toNat s with ⟨c, s'⟩
      cases c with
      | nil =>
        exfalso
        have hs : s = [] := readAtMost_nil _ s s' (by omega) hwf hr
        subst hs
        simp [avail] at ha
        omega
      | cons b bs =>
        simp only [hr]
        have hlen := readAtMost_length _ _ _ _ hr
        have hav := readAtMost_avail _ _ _ _ hr
        have hwf' := readAtMost_wf _ _ _ _ hwf hr
        have hlt : avail s' < a := by
          simp at hlen hav ⊢
          omega
        have := ih (avail s') hlt (body ++ b :: bs) cl s' rfl hwf'
          (by simp at hlen ⊢; omega) (by simp at hav ⊢; omega)
        exact this
    · rw [if_neg hg]
      omega

/-- When the peer closes before supplying the declared content length, the
body loop returns the collected prefix plus everything the stream held. -/
theorem bodyLoop_exhaust : ∀ (a : Nat) (body : List Nat) (cl : Int) (s : NetStream),
    avail s = a → wellFormed s → (body.length : Int) + (a : Int) ≤ cl →
    bodyLoop body cl s = body ++ s.flatten := by
  intro a
  induction a using Nat.strong_induction_on with
  | _ a ih =>
    intro body cl s ha hwf hhi
    conv_lhs => rw [bodyLoop.eq_def]
    by_cases hg : (body.length : Int) < cl
    · rw [if_pos hg]
      rcases hr : readAtMost (cl - body.length).toNat s with ⟨c, s'⟩
      cases c with
      | nil =>
        have hs : s = [] := readAtMost_nil _ s s' (by omega) hwf hr
        subst hs
        simp
      | cons b bs =>
        simp only [hr]
        have hav := readAtMost_avail _ _ _ _ hr
        have hwf' := readAtMost_wf _ _ _ _ hwf hr
        have hfl := readAtMost_flatten _ _ _ _ hr
        have hlt : avail s' < a := by
          simp at hav
          omega
        rw [ih (avail s') hlt (body ++ b :: bs) cl s' rfl hwf'
          (by simp at hav ⊢; omega)]
        rw [List.append_assoc, hfl]
    · rw [if_neg hg]
      have hc : cl ≤ (body.length : Int) := by omega
      have ha0 : a = 0 := by omega
      subst ha0
      have := avail_zero s hwf ha
      subst this
      simp

theorem stripPre_self_append (p l : List Char) : stripPre p (p ++ l) = some l := by
  induction p with
  | nil => rfl
  | cons c cs ih => simp [stripPre, ih]

/-- A literal that does not start with `pre` differs from every `pre ++ s`. -/
theorem pre_append_ne (pre s lit : String) (h : lit.data.take pre.data.length ≠ pre.data) :
    pre ++ s ≠ lit := by
  intro heq
  apply h
  have hd := congrArg String.data heq
  rw [String.data_append] at hd
  rw [← hd, List.take_left]

theorem str_append_cancel (p a b : String) (h : p ++ a = p ++ b) : a = b := by
  apply String.ext
  have hd := congrArg String.data h
  rw [String.data_append, String.data_append] at hd
  exact List.append_cancel_left hd

theorem matchIntRoute_append (pre seg : String) :
    matchIntRoute pre (pre ++ seg) =
      if !seg.data.isEmpty && seg.data.all isNd then some (ndDigitsVal seg.data)
      else none := by
  unfold matchIntRoute
  rw [String.data_append, stripPre_self_append]

theorem stripPre_error_status (l : List Char) :
    stripPre "/error/".data ("/status/".data ++ l) = none := rfl

theorem stripPre_status_error (l : List Char) :
    stripPre "/status/".data ("/error/".data ++ l) = none := rfl

theorem matchIntRoute_error_status (seg : String) :
    matchIntRoute "/error/" ("/status/" ++ seg) = none := by
  unfold matchIntRoute
  rw [String.data_append, stripPre_error_status]

theorem matchIntRoute_status_error (seg : String) :
    matchIntRoute "/status/" ("/error/" ++ seg) = none := by
  unfold matchIntRoute
  rw [String.data_append, stripPre_status_error]

/-- Reduction of `_handle` on a `GET /error/<seg>` path with `seg` not the
literal `timeout`: only the two parametric matchers and the fallback remain. -/
theorem handle_error_path (seg : String) (hne : seg ≠ "timeout")
    (hdrs : List (String × String)) (body : List Nat) :
    handle "GET" ("/error/" ++ seg) hdrs body =
      match matchIntRoute "/error/" ("/error/" ++ seg) with
      | some code => [.wr (jsonResponse (errorEnvelopeJson code) code)]
      | none => [.wr (jsonResponse notFoundJson 404)] := by
  unfold handle
  rw [if_neg (fun hc => pre_append_ne "/error/" seg "/health" (by decide) hc.2)]
  rw [if_neg (fun hc => (by decide : ("GET" : String) ≠ "POST") hc.1)]
  rw [if_neg (fun hc => (by decide : ("GET" : String) ≠ "POST") hc.1)]
  rw [if_neg (fun hc => (by decide : ("GET" : String) ≠ "POST") hc.1)]
  rw [if_neg (fun hc => pre_append_ne "/error/" seg "/v1/models" (by decide) hc.2)]
  rw [if_neg (fun hc => hne (str_append_cancel "/error/" seg "timeout"
    (hc.2.trans (by decide))))]
  rw [if_pos rfl]
  cases matchIntRoute "/error/" ("/error/" ++ seg) with
  | some code => rfl
  | none => rw [matchIntRoute_status_error seg]

/-- Reduction of `_handle` on a `GET /status/<seg>` path. -/
theorem handle_status_path (seg : String) (hdrs : List (String × String)) (body : List Nat) :
    handle "GET" ("/status/" ++ seg) hdrs body =
      match matchIntRoute "/status/" ("/status/" ++ seg) with
      | some code => [.wr (jsonResponse (statusRouteJson code) code)]
      | none => [.wr (jsonResponse notFoundJson 404)] := by
  unfold handle
  rw [if_neg (fun hc => pre_append_ne "/status/" seg "/health" (by decide) hc.2)]
  rw [if_neg (fun hc => (by decide : ("GET" : String) ≠ "POST") hc.1)]
  rw [if_neg (fun hc => (by decide : ("GET" : String) ≠ "POST") hc.1)]
  rw [if_neg (fun hc => (by decide : ("GET" : String) ≠ "POST") hc.1)]
  rw [if_neg (fun hc => pre_append_ne "/status/" seg "/v1/models" (by decide) hc.2)]
  rw [if_neg (fun hc => pre_append_ne "/status/" seg "/error/timeout" (by decide) hc.2)]
  rw [if_pos rfl]
  rw [matchIntRoute_error_status seg]

/-- Any (method, path) pair matching none of the route conditions falls
through `_handle` to the 404 not-found response. -/
theorem handle_nomatch (m p : String) (hdrs : List (String × String)) (body : List Nat)
    (h : routeMatches m p = false) :
    handle m p hdrs body = [.wr (jsonResponse notFoundJson 404)] := by
  simp only [routeMatches, Bool.or_eq_false_iff] at h
  obtain ⟨⟨⟨⟨⟨⟨⟨h1, h2⟩, h3⟩, h4⟩, h5⟩, h6⟩, h7⟩, h8⟩ := h
  unfold handle
  rw [if_neg (fun hc => by rw [hc.1, hc.2] at h1; simp at h1)]
  rw [if_neg (fun hc => by rw [hc.1, hc.2] at h2; simp at h2)]
  rw [if_neg (fun hc => by rw [hc.1, hc.2] at h3; simp at h3)]
  rw [if_neg (fun hc => by rw [hc.1, hc.2] at h4; simp at h4)]
  rw [if_neg (fun hc => by rw [hc.1, hc.2] at h5; simp at h5)]
  rw [if_neg (fun hc => by rw [hc.1, hc.2] at h6; simp at h6)]
  by_cases hm : m = "GET"
  · rw [if_pos hm]
    rw [hm] at h7 h8
    have he : matchIntRoute "/error/" p = none := by
      rcases hopt : matchIntRoute "/error/" p with _ | v
      · rfl
      · rw [hopt] at h7
        simp at h7
    have hs : matchIntRoute "/status/" p = none := by
      rcases hopt : matchIntRoute "/status/" p with _ | v
      · rfl
      · rw [hopt] at h8
        simp at h8
    rw [he, hs]
  · rw [if_neg hm]

/-- Field lookup in a JSON object value. -/
def jFieldsGet : JFields → String → Option JVal
  | .nil, _ => none
  | .cons k v tl, q => if k = q then some v else jFieldsGet tl q

/-- Field lookup on a JSON value (objects only). -/
def jGet : JVal → String → Option JVal
  | .obj fs, q => jFieldsGet fs q
  | _, _ => none

/-- Index lookup in a JSON array value. -/
def jListGet : JList → Nat → Option JVal
  | .nil, _ => none
  | .cons v _, 0 => some v
  | .cons _ tl, i + 1 => jListGet tl i

/-- Index lookup on a JSON value (arrays only). -/
def jIdx : JVal → Nat → Option JVal
  | .arr xs, i => jListGet xs i
  | _, _ => none

/-- First choice object of a chat-completion chunk. -/
def choice0 (v : JVal) : Option JVal := (jGet v "choices").bind (fun c => jIdx c 0)

/-- The `finish_reason` field of a chunk's first choice. -/
def finishReason0 (v : JVal) : Option JVal := (choice0 v).bind (fun c => jGet c "finish_reason")

/-- The `delta` field of a chunk's first choice. -/
def delta0 (v : JVal) : Option JVal := (choice0 v).bind (fun c => jGet c "delta")

/-- Header data accumulated by `_read_request` for a stream. -/
def rawHeaderData (s : NetStream) : List Nat := (headerLoop [] s).1

/-- Stream remaining after the header phase of `_read_request`. -/
def restStream (s : NetStream) : NetStream := (headerLoop [] s).2

/-- Decoded request method of a stream. -/
def reqMethod (s : NetStream) : String := (decodePart (rawHeaderData s)).1

/-- Decoded request path of a stream. -/
def reqPath (s : NetStream) : String := (decodePart (rawHeaderData s)).2.1

/-- Decoded request headers of a stream. -/
def reqHeaders (s : NetStream) : List (String × String) := (decodePart (rawHeaderData s)).2.2.1

/-- Body bytes read past the header terminator during the header phase. -/
def reqBodyStart (s : NetStream) : List Nat := (decodePart (rawHeaderData s)).2.2.2

/-- The declared content length: `int(headers.get("content-length", "0"))`,
`none` when `int` raises. -/
def declaredCL (s : NetStream) : Option Int :=
  pyInt ((dictGet (reqHeaders s) "content-length").getD "0")

/-- Request line of the decoded header block. -/
def reqLineOf (hd : List Nat) : List Char :=
  (splitCRLF (u8d (partitionSub [13, 10, 13, 10] hd).1)).headD []

theorem readRequest_eq (s : NetStream) :
    readRequest s = match declaredCL s with
      | none => none
      | some cl => some (reqMethod s, reqPath s, reqHeaders s,
          bodyLoop (reqBodyStart s) cl (restStream s)) := rfl

theorem matchIntRoute_repr (pre : String) (c : Nat) :
    matchIntRoute pre (pre ++ pyNatRepr c) = some c := by
  rw [matchIntRoute_append]
  have hne : (pyNatRepr c).data ≠ [] := natReprChars_ne_nil c
  have hempty : (pyNatRepr c).data.isEmpty = false := by
    cases hd : (pyNatRepr c).data with
    | nil => exact absurd hd hne
    | cons x xs => rfl
  have hdig : (pyNatRepr c).data.all isNd = true := by
    rw [List.all_eq_true]
    intro ch hch
    exact isNd_of_isDigit ch (natReprChars_digits c ch hch)
  rw [if_pos (by rw [hempty, hdig]; rfl)]
  show some (ndDigitsVal (natReprChars c)) = some c
  rw [ndDigitsVal_ascii _ (natReprChars_digits c), digitsVal_natReprChars]

/-- The parametric routes accept non-ASCII decimal digits exactly as the
regex `\d` does: `GET /error/٣` (U+0663, digit value 3) yields the status-3
error response, not the 404 fallback. -/
theorem handle_arabic_digit :
    handle "GET" "/error/٣" [] [] = [.wr (jsonResponse (errorEnvelopeJson 3) 3)] := by
  have h := handle_error_path "٣" (by decide) [] []
  have hs : ("/error/" ++ "٣" : String) = "/error/٣" := rfl
  rw [hs] at h
  rw [h, show matchIntRoute "/error/" "/error/٣" = some 3 from by decide]
  rfl

theorem pyNatRepr_ne (c : Nat) (lit : String) (hch : Char) (hmem : hch ∈ lit.data)
    (hnd : hch.isDigit = false) : pyNatRepr c ≠ lit := by
  intro h
  have hd := congrArg String.data h
  have hm : hch ∈ (pyNatRepr c).data := by rw [hd]; exact hmem
  have := natReprChars_digits c hch hm
  rw [hnd] at this
  exact Bool.false_ne_true this

theorem hexDigitChar_lower :
    ∀ k, k < 16 → (48 ≤ (hexDigitChar k).toNat ∧ (hexDigitChar k).toNat ≤ 57) ∨
      (97 ≤ (hexDigitChar k).toNat ∧ (hexDigitChar k).toNat ≤ 102) := by decide

/-- The hex length digits are decimal digits or lowercase `a`-`f`. -/
theorem hexReprChars_lower (n : Nat) :
    ∀ c ∈ hexReprChars n, (48 ≤ c.toNat ∧ c.toNat ≤ 57) ∨
      (97 ≤ c.toNat ∧ c.toNat ≤ 102) := by
  induction n using Nat.strong_induction_on with
  | _ n ih =>
    intro c hc
    rw [hexReprChars_step] at hc
    by_cases h : n < 16
    · rw [if_pos h] at hc
      simp at hc
      subst hc
      exact hexDigitChar_lower n h
    · rw [if_neg h] at hc
      rcases List.mem_append.1 hc with h1 | h2
      · exact ih (n / 16) (Nat.div_lt_self (by omega) (by omega)) c h1
      · simp at h2
        subst h2
        exact hexDigitChar_lower _ (Nat.mod_lt _ (by omega))

theorem dictGet_eq_none {α β : Type} [DecidableEq α] (d : List (α × β)) (k : α)
    (h : k ∉ d.map Prod.fst) : dictGet d k = none := by
  induction d with
  | nil => rfl
  | cons kv rest ih =>
    have h1 : kv.1 ≠ k := by
      intro he
      exact h (by simp [← he])
    simp only [dictGet, if_neg h1]
    exact ih (fun hm => h (by simp at hm ⊢; right; exact hm))

theorem splitChar1_none (sep : Char) (l : List Char) (h : sep ∉ l) :
    splitChar1 sep l = none := by
  induction l with
  | nil => rfl
  | cons c cs ih =>
    have hc : c ≠ sep := fun he => h (by rw [he]; simp)
    simp only [splitChar1, if_neg hc, ih (fun hm => h (by simp [hm]))]
    rfl

theorem handle_stream_route (hdrs : List (String × String)) (body : List Nat) :
    handle "POST" "/v1/chat/completions/stream" hdrs body = streamEvents := by
  unfold handle
  rw [if_neg (fun hc => (by decide : ("POST" : String) ≠ "GET") hc.1)]
  rw [if_neg (fun hc => (by decide : ("/v1/chat/completions/stream" : String) ≠ "/echo") hc.2)]
  rw [if_pos ⟨rfl, rfl⟩]

/-- C1: for every `POST /v1/chat/completions/stream` request, the handler
writes the SSE response head and then exactly seven stream elements in order:
four word-delta frames (one per word of the fixed list, each a
chat-completion-chunk with null `finish_reason`, `role: "assistant"` in the
first frame's delta and in no other), one frame with empty delta and
`finish_reason: "stop"`, one frame whose data payload is the literal
`[DONE]`, and the zero-length terminating chunk — nothing before, between or
after them. -/
theorem chat_stream_frames (hdrs : List (String × String)) (body : List Nat) :
    writesOf (handle "POST" "/v1/chat/completions/stream" hdrs body) =
      sseHeaderBytes :: [sseChunk (dumps (wordChunkJson 0 "Hello")),
        sseChunk (dumps (wordChunkJson 1 " from")),
        sseChunk (dumps (wordChunkJson 2 " mock")),
        sseChunk (dumps (wordChunkJson 3 " server")),
        sseChunk (dumps finalChunkJson), sseChunk "[DONE]", sseEnd] ∧
    (writesOf (handle "POST" "/v1/chat/completions/stream" hdrs body)).length = 1 + 7 ∧
    streamWords = ["Hello", " from", " mock", " server"] ∧
    (finishReason0 (wordChunkJson 0 "Hello") = some .null ∧
      finishReason0 (wordChunkJson 1 " from") = some .null ∧
      finishReason0 (wordChunkJson 2 " mock") = some .null ∧
      finishReason0 (wordChunkJson 3 " server") = some .null) ∧
    ((delta0 (wordChunkJson 0 "Hello")).bind (fun d => jGet d "role") =
        some (.str "assistant") ∧
      (delta0 (wordChunkJson 1 " from")).bind (fun d => jGet d "role") = none ∧
      (delta0 (wordChunkJson 2 " mock")).bind (fun d => jGet d "role") = none ∧
      (delta0 (wordChunkJson 3 " server")).bind (fun d => jGet d "role") = none) ∧
    ((delta0 (wordChunkJson 0 "Hello")).bind (fun d => jGet d "content") =
        some (.str "Hello") ∧
      (delta0 (wordChunkJson 1 " from")).bind (fun d => jGet d "content") =
        some (.str " from") ∧
      (delta0 (wordChunkJson 2 " mock")).bind (fun d => jGet d "content") =
        some (.str " mock") ∧
      (delta0 (wordChunkJson 3 " server")).bind (fun d => jGet d "content") =
        some (.str " server")) ∧
    delta0 finalChunkJson = some (jobj []) ∧
    finishReason0 finalChunkJson = some (.str "stop") ∧
    sseEnd = [48, 13, 10, 13, 10] := by
  rw [handle_stream_route]
  exact ⟨rfl, rfl, rfl, ⟨rfl, rfl, rfl, rfl⟩, ⟨rfl, rfl, rfl, rfl⟩,
    ⟨rfl, rfl, rfl, rfl⟩, rfl, rfl, rfl⟩

/-- C2: for every `POST /echo` request, the handler responds 200 with a JSON
object whose `body` field is the body decoded as UTF-8 with replacement and
whose `headers` field is the decoded header dict; lookup in that dict returns
the last matching header line's value under the stripped, lower-cased name
(last value wins on duplicates). -/
theorem echo_route (hlines : List (List Char)) (B : List Nat) :
    handle "POST" "/echo" (headersOfLines hlines) B =
      [.wr (jsonResponse (jobj [("headers",
          jobj ((headersOfLines hlines).map (fun kv => (kv.1, JVal.str kv.2)))),
        ("body", .str (pyDecode B))]) 200)] ∧
    ∀ k : String, dictGet (headersOfLines hlines) k =
      (((hlines.filterMap headerEntry).filter (fun kv => kv.1 = k)).getLast?).map
        Prod.snd := by
  constructor
  · unfold handle
    rw [if_neg (fun hc => (by decide : ("POST" : String) ≠ "GET") hc.1)]
    rw [if_pos ⟨rfl, rfl⟩]
    rfl
  · intro k
    exact headersOfLines_get hlines k

/-- C3: for every decimal integer `c`, `GET /error/{c}` responds with HTTP
status `c` and body
`error: (message: "Simulated error c", type: "server_error", code: "error_c")`
and `GET /status/{c}` responds with status `c` and
`(status: c, description: "Status c")`. -/
theorem error_status_numeric_routes (c : Nat) (hdrs : List (String × String))
    (body : List Nat) :
    handle "GET" ("/error/" ++ pyNatRepr c) hdrs body =
      [.wr (jsonResponse (errorEnvelopeJson c) (c : Int))] ∧
    handle "GET" ("/status/" ++ pyNatRepr c) hdrs body =
      [.wr (jsonResponse (statusRouteJson c) (c : Int))] := by
  constructor
  · rw [handle_error_path (pyNatRepr c)
      (pyNatRepr_ne c "timeout" 't' (by decide) (by decide)) hdrs body]
    rw [matchIntRoute_repr]
  · rw [handle_status_path (pyNatRepr c) hdrs body]
    rw [matchIntRoute_repr]

/-- C4: segments with a character outside the decimal-digit class `\d` fall
through both parametric routes to the 404 fallback (the literal
`/error/timeout` aside), and every (method, path) pair matching no route gets
the 404 not-found JSON response. -/
theorem nonmatching_routes_404 :
    (∀ (seg : String) (hdrs : List (String × String)) (body : List Nat),
      (∃ ch ∈ seg.data, isNd ch = false) → seg ≠ "timeout" →
      handle "GET" ("/error/" ++ seg) hdrs body = [.wr (jsonResponse notFoundJson 404)] ∧
      handle "GET" ("/status/" ++ seg) hdrs body = [.wr (jsonResponse notFoundJson 404)]) ∧
    (∀ (m p : String) (hdrs : List (String × String)) (body : List Nat),
      routeMatches m p = false →
      handle m p hdrs body = [.wr (jsonResponse notFoundJson 404)]) := by
  constructor
  · intro seg hdrs body hnd hnt
    have hall : seg.data.all isNd = false := by
      rcases hnd with ⟨ch, hch, hd⟩
      cases hq : seg.data.all isNd
      · rfl
      · rw [List.all_eq_true] at hq
        rw [hq ch hch] at hd
        exact absurd hd (by simp)
    have hmatch : matchIntRoute "/error/" ("/error/" ++ seg) = none := by
      rw [matchIntRoute_append, hall]
      simp
    have hmatch2 : matchIntRoute "/status/" ("/status/" ++ seg) = none := by
      rw [matchIntRoute_append, hall]
      simp
    constructor
    · rw [handle_error_path seg hnt hdrs body, hmatch]
    · rw [handle_status_path seg hdrs body, hmatch2]
  · intro m p hdrs body h
    exact handle_nomatch m p hdrs body h

theorem nonmatching_routes_404_witness :
    (∃ ch ∈ ("5x" : String).data, isNd ch = false) ∧ ("5x" : String) ≠ "timeout" ∧
    handle "GET" "/error/5x" [] [] = [.wr (jsonResponse notFoundJson 404)] ∧
    routeMatches "DELETE" "/nope" = false ∧
    handle "DELETE" "/nope" [] [] = [.wr (jsonResponse notFoundJson 404)] := by
  refine ⟨⟨'x', by decide, by decide⟩, by decide, ?_, by decide, ?_⟩
  · have h := (nonmatching_routes_404.1 "5x" [] [] ⟨'x', by decide, by decide⟩
      (by decide)).1
    have hs : ("/error/" ++ "5x" : String) = "/error/5x" := rfl
    rw [hs] at h
    exact h
  · exact nonmatching_routes_404.2 "DELETE" "/nope" [] [] (by decide)

/-- C5: for every payload and status, the buffered JSON response parses into a
status line carrying the table's reason phrase (`"Unknown"` when unlisted),
`Content-Type: application/json`, a `Content-Length` header whose value is the
exact byte count of the serialized JSON body, `Connection: close`, a blank
line, and the body itself. -/
theorem json_encoder_contract (d : JVal) (status : Int) :
    takeLinesB 5 (jsonResponse d status) =
      some ([statusLineBytes status, utf8Str "Content-Type: application/json",
        contentLengthLineBytes (dumpsBytes d).length, utf8Str "Connection: close", []],
        dumpsBytes d) ∧
    contentLengthLineBytes (dumpsBytes d).length =
      utf8Str "Content-Length: " ++ (natReprChars (dumpsBytes d).length).map Char.toNat ∧
    statusLineBytes status =
      utf8Str "HTTP/1.1 " ++ (intReprChars status).map Char.toNat ++
        (32 :: utf8Str (reasonFor status)) ∧
    (status ∉ httpReasons.map Prod.fst → reasonFor status = "Unknown") ∧
    (∀ kv ∈ httpReasons, kv.1 = status → reasonFor status = kv.2) := by
  refine ⟨jsonResponse_parse d status, ?_, ?_, ?_, ?_⟩
  · unfold contentLengthLineBytes
    rw [utf8Enc_append, utf8Enc_ascii (natReprChars _) (fun c hc => by
      have := natReprChars_printable _ c hc
      omega)]
    rfl
  · unfold statusLineBytes
    rw [utf8Enc_append, utf8Enc_append, utf8Enc_cons,
      utf8Enc_ascii (intReprChars status) (fun c hc => by
        have := intReprChars_printable status c hc
        omega)]
    rfl
  · intro hmem
    unfold reasonFor
    rw [dictGet_eq_none httpReasons status hmem]
    rfl
  · intro kv hkv hks
    fin_cases hkv <;> (rw [← hks]; rfl)

theorem json_encoder_contract_witness :
    ((418 : Int) ∉ httpReasons.map Prod.fst) ∧ reasonFor 418 = "Unknown" ∧
    (((200 : Int), "OK") ∈ httpReasons) ∧ reasonFor 200 = "OK" := by
  refine ⟨by decide, ?_, by decide, ?_⟩
  · exact (json_encoder_contract (jobj []) 418).2.2.2.1 (by decide)
  · exact (json_encoder_contract (jobj []) 200).2.2.2.2 (200, "OK") (by decide) rfl

/-- C6: for every SSE payload string, `_sse_chunk` emits the bytes of
`data: <payload>` with a double newline, framed as one HTTP chunk — the hex
byte length (decimal digits and lowercase `a`-`f` only), CRLF, the block,
CRLF — the framing decodes back to exactly that block, and `_sse_end` is the
zero-length terminating chunk `0 CRLF CRLF`. -/
theorem sse_chunk_encoding (p : String) :
    sseChunk p = (hexReprChars (ssePayload p).length).map Char.toNat ++
      13 :: 10 :: (ssePayload p ++ [13, 10]) ∧
    ssePayload p = utf8Str ("data: " ++ p ++ "\n\n") ∧
    chunkDecode (sseChunk p) = some (ssePayload p) ∧
    (∀ c ∈ hexReprChars (ssePayload p).length,
      (48 ≤ c.toNat ∧ c.toNat ≤ 57) ∨ (97 ≤ c.toNat ∧ c.toNat ≤ 102)) ∧
    sseEnd = [48, 13, 10, 13, 10] := by
  refine ⟨sseChunk_decomp p, rfl, ?_, hexReprChars_lower _, rfl⟩
  rw [sseChunk_decomp p]
  exact chunkDecode_frame (ssePayload p)

theorem sse_chunk_encoding_witness :
    chunkDecode (sseChunk "[DONE]") = some (utf8Str "data: [DONE]\n\n") ∧
    sseEnd = [48, 13, 10, 13, 10] := by
  have h := sse_chunk_encoding "[DONE]"
  refine ⟨?_, h.2.2.2.2⟩
  have h2 := h.2.2.1
  have h3 : ssePayload "[DONE]" = utf8Str "data: [DONE]\n\n" := rfl
  rw [h3] at h2
  exact h2

theorem pySplit2_ne_nil (l : List Char) : pySplit2 l ≠ [] := by
  unfold pySplit2
  rcases h1 : splitChar1 ' ' l with _ | ⟨a, b⟩
  · simp
  · rcases h2 : splitChar1 ' ' b with _ | ⟨c, d⟩ <;> simp [h2]

theorem pySplit2_no_space (l : List Char) (h : ' ' ∉ l) : pySplit2 l = [l] := by
  unfold pySplit2
  rw [splitChar1_none ' ' l h]

/-- C7 (counterexample): a request carrying the non-numeric header
`content-length: abc` makes `_read_request` raise (`int("abc")` is a
`ValueError`), rather than defaulting the length to 0. -/
theorem content_length_nonnumeric_raises :
    readRequest [utf8Str "GET /x HTTP/1.1\r\ncontent-length: abc\r\n\r\n"] = none ∧
    pyInt "abc" = none ∧
    dictGet (reqHeaders [utf8Str "GET /x HTTP/1.1\r\ncontent-length: abc\r\n\r\n"])
      "content-length" = some "abc" := by
  refine ⟨?_, ?_, ?_⟩ <;>
    simp [readRequest, reqHeaders, rawHeaderData, headerLoop, readAtMost, hasSub,
      decodePart, partitionSub, splitCRLF, u8d, pySplit2, splitChar1, headersOfLines,
      headerEntry, dictSet, dictGet, pyInt, pyIntCore, pyStrip, pyLower, isPySpace,
      bodyLoop, utf8Str, utf8Enc, encodeChar]

/-- C7 (amended): the Content-Length value defaults to `"0"` only when the
header is absent — then the reader returns normally with the bytes already
collected past the header terminator — and `_read_request` fails exactly when
a present value does not parse as a Python integer. -/
theorem content_length_default_amended (s : NetStream) :
    (dictGet (reqHeaders s) "content-length" = none →
      readRequest s = some (reqMethod s, reqPath s, reqHeaders s, reqBodyStart s)) ∧
    (readRequest s = none ↔ declaredCL s = none) := by
  constructor
  · intro habs
    rw [readRequest_eq]
    have hcl : declaredCL s = some 0 := by
      unfold declaredCL
      rw [habs]
      simp [pyInt, pyStrip, isPySpace, pyIntCore]
    rw [hcl]
    have hb : bodyLoop (reqBodyStart s) 0 (restStream s) = reqBodyStart s :=
      bodyLoop_done _ _ _ (by omega)
    simp [hb]
  · rw [readRequest_eq]
    cases hcl : declaredCL s <;> simp

theorem content_length_default_amended_witness :
    dictGet (reqHeaders [utf8Str "GET / HTTP/1.1\r\n\r\n"]) "content-length" = none ∧
    readRequest [utf8Str "GET / HTTP/1.1\r\n\r\n"] = some ("GET", "/", [], []) := by
  have habs : dictGet (reqHeaders [utf8Str "GET / HTTP/1.1\r\n\r\n"])
      "content-length" = none := by
    simp [reqHeaders, rawHeaderData, headerLoop, readAtMost, hasSub, decodePart,
      partitionSub, splitCRLF, u8d, pySplit2, splitChar1, headersOfLines, headerEntry,
      dictSet, dictGet, pyLower, pyStrip, isPySpace, utf8Str, utf8Enc, encodeChar]
  refine ⟨habs, ?_⟩
  rw [(content_length_default_amended [utf8Str "GET / HTTP/1.1\r\n\r\n"]).1 habs]
  simp [reqMethod, reqPath, reqHeaders, reqBodyStart, rawHeaderData, headerLoop,
    readAtMost, hasSub, decodePart, partitionSub, splitCRLF, u8d, pySplit2, splitChar1,
    headersOfLines, headerEntry, dictSet, dictGet, pyLower, pyStrip, isPySpace,
    utf8Str, utf8Enc, encodeChar]

/-- C8 (counterexample): on an empty header block the request line is empty,
`"".split(" ", 2)` is `[""]`, so the decoded method is the empty string — not
the `"GET"` default, whose guard `len(parts) > 0` never fails. -/
theorem empty_request_line_not_get :
    (decodePart []).1 = "" ∧ ("" : String) ≠ "GET" ∧ (decodePart []).2.1 = "/" ∧
    readRequest [] = some ("", "/", [], []) := by
  refine ⟨?_, by decide, ?_, ?_⟩ <;>
    simp [readRequest, decodePart, rawHeaderData, headerLoop, readAtMost, hasSub,
      partitionSub, splitCRLF, u8d, pySplit2, splitChar1, headersOfLines, headerEntry,
      dictGet, pyInt, pyIntCore, pyStrip, isPySpace, bodyLoop]

/-- C8 (amended): the decoder is total by construction and never fails; the
method is always the first token of `split(" ", 2)` (the split is never
empty, so the `"GET"` default is unreachable, and an empty request line
yields the empty-string method); the path defaults to `/` exactly when the
request line holds no space. -/
theorem request_decoder_amended (hd : List Nat) :
    (decodePart hd).1 = ⟨(pySplit2 (reqLineOf hd)).headD []⟩ ∧
    pySplit2 (reqLineOf hd) ≠ [] ∧
    (' ' ∉ reqLineOf hd → (decodePart hd).2.1 = "/") ∧
    (reqLineOf hd = [] → (decodePart hd).1 = "") := by
  refine ⟨?_, pySplit2_ne_nil _, ?_, ?_⟩
  · show (match pySplit2 (reqLineOf hd) with
      | [] => ("GET" : String)
      | m :: _ => ⟨m⟩) = ⟨(pySplit2 (reqLineOf hd)).headD []⟩
    rcases hsp : pySplit2 (reqLineOf hd) with _ | ⟨m, rest⟩
    · exact absurd hsp (pySplit2_ne_nil _)
    · rfl
  · intro hns
    show (match pySplit2 (reqLineOf hd) with
      | _ :: p :: _ => (⟨p⟩ : String)
      | _ => "/") = "/"
    rw [pySplit2_no_space _ hns]
  · intro hnil
    show (match pySplit2 (reqLineOf hd) with
      | [] => ("GET" : String)
      | m :: _ => ⟨m⟩) = ""
    rw [hnil]
    rfl

theorem request_decoder_amended_witness :
    reqLineOf [] = [] ∧ (decodePart []).1 = "" ∧
    ' ' ∉ reqLineOf [] ∧ (decodePart []).2.1 = "/" := by
  have h := request_decoder_amended []
  have hline : reqLineOf [] = [] := by
    simp [reqLineOf, partitionSub, u8d, splitCRLF]
  refine ⟨hline, h.2.2.2 hline, ?_, h.2.2.1 ?_⟩ <;> rw [hline] <;> simp

/-- C9 (counterexample): with `Content-Length: 0` and two extra bytes read
together with the header block, `_read_request` returns a 2-byte body — the
returned body can be longer than the declared content length. -/
theorem body_longer_than_declared :
    readRequest [utf8Str "POST /echo HTTP/1.1\r\ncontent-length: 0\r\n\r\nXX"] =
      some ("POST", "/echo", [("content-length", "0")], [88, 88]) ∧
    pyInt "0" = some 0 ∧ ([88, 88] : List Nat).length > 0 := by
  refine ⟨?_, ?_, by decide⟩ <;>
    simp [readRequest, reqHeaders, rawHeaderData, headerLoop, readAtMost, hasSub,
      decodePart, partitionSub, splitCRLF, u8d, pySplit2, splitChar1, headersOfLines,
      headerEntry, dictSet, dictGet, pyInt, pyIntCore, pyStrip, pyLower, isPySpace,
      bodyLoop, utf8Str, utf8Enc, encodeChar]

/-- C9 (amended): the returned body is `bodyLoop` of the bytes over-read with
the header block: if those bytes already reach the declared length the body
is exactly them (possibly longer than declared); otherwise, when the stream
supplies enough further bytes the body length equals the declared length, and
when the peer closes early the body is the over-read prefix plus everything
received. -/
theorem body_read_amended (s : NetStream) (cl : Int) (h : declaredCL s = some cl) :
    readRequest s = some (reqMethod s, reqPath s, reqHeaders s,
      bodyLoop (reqBodyStart s) cl (restStream s)) ∧
    (cl ≤ ((reqBodyStart s).length : Int) →
      bodyLoop (reqBodyStart s) cl (restStream s) = reqBodyStart s) ∧
    (wellFormed (restStream s) → ((reqBodyStart s).length : Int) ≤ cl →
      cl ≤ ((reqBodyStart s).length : Int) + (avail (restStream s) : Int) →
      (bodyLoop (reqBodyStart s) cl (restStream s)).length = cl.toNat) ∧
    (wellFormed (restStream s) →
      ((reqBodyStart s).length : Int) + (avail (restStream s) : Int) ≤ cl →
      bodyLoop (reqBodyStart s) cl (restStream s) =
        reqBodyStart s ++ (restStream s).flatten) := by
  refine ⟨?_, ?_, ?_, ?_⟩
  · rw [readRequest_eq, h]
  · exact fun hle => bodyLoop_done _ _ _ hle
  · exact fun hwf h1 h2 => bodyLoop_full (avail (restStream s)) _ _ _ rfl hwf h1 h2
  · exact fun hwf h1 => bodyLoop_exhaust (avail (restStream s)) _ _ _ rfl hwf h1

theorem body_read_amended_witness :
    declaredCL [utf8Str "POST /e HTTP/1.1\r\ncontent-length: 4\r\n\r\n", utf8Str "ABCD"] =
      some 4 ∧
    (bodyLoop (reqBodyStart [utf8Str "POST /e HTTP/1.1\r\ncontent-length: 4\r\n\r\n",
        utf8Str "ABCD"]) 4
      (restStream [utf8Str "POST /e HTTP/1.1\r\ncontent-length: 4\r\n\r\n",
        utf8Str "ABCD"])).length = (4 : Int).toNat := by
  have hcl : declaredCL [utf8Str "POST /e HTTP/1.1\r\ncontent-length: 4\r\n\r\n",
      utf8Str "ABCD"] = some 4 := by
    simp [declaredCL, reqHeaders, rawHeaderData, headerLoop, readAtMost, hasSub,
      decodePart, partitionSub, splitCRLF, u8d, pySplit2, splitChar1, headersOfLines,
      headerEntry, dictSet, dictGet, pyInt, pyIntCore, pyStrip, pyLower, isPySpace,
      utf8Str, utf8Enc, encodeChar]
  have hrest : restStream [utf8Str "POST /e HTTP/1.1\r\ncontent-length: 4\r\n\r\n",
      utf8Str "ABCD"] = [utf8Str "ABCD"] := by
    simp [restStream, headerLoop, readAtMost, hasSub, utf8Str, utf8Enc, encodeChar]
  have hbs : reqBodyStart [utf8Str "POST /e HTTP/1.1\r\ncontent-length: 4\r\n\r\n",
      utf8Str "ABCD"] = [] := by
    simp [reqBodyStart, rawHeaderData, headerLoop, readAtMost, hasSub, decodePart,
      partitionSub, utf8Str, utf8Enc, encodeChar]
  refine ⟨hcl, ?_⟩
  exact (body_read_amended _ 4 hcl).2.2.1
    (by rw [hrest]; show ∀ c ∈ [utf8Str "ABCD"], c ≠ []; decide)
    (by rw [hbs]; simp)
    (by rw [hbs, hrest]; simp [avail, utf8Str, utf8Enc, encodeChar])

/-- C10: on an all-digit segment with leading zeros, the parametric routes
use the parsed integer value, not the path text: the HTTP status is the
numeric value and the rendered message and code use its canonical decimal
form. -/
theorem leading_zero_routes (s : String) (hd : s.data.all Char.isDigit = true)
    (hz : s.data.headD '0' = '0') (hlen : 2 ≤ s.data.length)
    (hdrs : List (String × String)) (body : List Nat) :
    handle "GET" ("/error/" ++ s) hdrs body =
      [.wr (jsonResponse (errorEnvelopeJson (digitsVal s.data))
        ((digitsVal s.data : Nat) : Int))] ∧
    handle "GET" ("/status/" ++ s) hdrs body =
      [.wr (jsonResponse (statusRouteJson (digitsVal s.data))
        ((digitsVal s.data : Nat) : Int))] := by
  have hne : s ≠ "timeout" := by
    intro he
    have hmem : 't' ∈ s.data := by
      rw [he]
      decide
    have := (List.all_eq_true.1 hd) 't' hmem
    exact absurd this (by decide)
  have hnonempty : s.data.isEmpty = false := by
    cases hsd : s.data with
    | nil =>
      rw [hsd] at hlen
      simp at hlen
    | cons a l => rfl
  have hallnd : s.data.all isNd = true := by
    rw [List.all_eq_true]
    intro c hc
    exact isNd_of_isDigit c (List.all_eq_true.1 hd c hc)
  have hval : ndDigitsVal s.data = digitsVal s.data :=
    ndDigitsVal_ascii s.data (List.all_eq_true.1 hd)
  have hmatch : matchIntRoute "/error/" ("/error/" ++ s) = some (digitsVal s.data) := by
    rw [matchIntRoute_append, if_pos (by rw [hnonempty, hallnd]; rfl), hval]
  have hmatch2 : matchIntRoute "/status/" ("/status/" ++ s) = some (digitsVal s.data) := by
    rw [matchIntRoute_append, if_pos (by rw [hnonempty, hallnd]; rfl), hval]
  constructor
  · rw [handle_error_path s hne hdrs body, hmatch]
  · rw [handle_status_path s hdrs body, hmatch2]

theorem leading_zero_routes_witness :
    ("007" : String).data.all Char.isDigit = true ∧
    digitsVal ("007" : String).data = 7 ∧
    pyNatRepr 7 = "7" ∧
    handle "GET" "/error/007" [] [] = [.wr (jsonResponse (errorEnvelopeJson 7) 7)] := by
  refine ⟨by decide, by decide, ?_, ?_⟩
  · have h7 : natReprChars 7 = ['7'] := by
      rw [natReprChars_step]
      rfl
    show (⟨natReprChars 7⟩ : String) = "7"
    rw [h7]
  · have h := (leading_zero_routes "007" (by decide) (by decide) (by decide) [] []).1
    have hs : ("/error/" ++ "007" : String) = "/error/007" := rfl
    rw [hs] at h
    rw [show digitsVal ("007" : String).data = 7 from by decide] at h
    exact h
